import Mathlib

/-!
Verification of the go-rst reStructuredText parser sources against its
natural-language specification.  The definitions below are shallow
embeddings of the Go source files of the repository: pure Go functions
become Lean functions, the parser's mutable state (token buffer, node
tree, registry) becomes explicit state passing over inductive data.
-/

namespace GoRst

/-! ## Message catalogue

Embedding of the `messages` package (`parser_message_type.go`, current
revision): the `MessageType` enumeration, its name table and the
`level` function that derives the severity string from the name.
-/

/-- MessageType mirrors the Go `type MessageType int` enumeration, in
declaration order of the current catalogue. -/
inductive MessageType where
  | ParserMessageNil
  | SectionWarningOverlineTooShortForTitle
  | SectionWarningUnexpectedTitleOverlineOrTransition
  | SectionWarningUnderlineTooShortForTitle
  | SectionWarningShortOverline
  | SectionWarningShortUnderline
  | SectionErrorInvalidSectionOrTransitionMarker
  | SectionErrorUnexpectedSectionTitle
  | SectionErrorUnexpectedSectionTitleOrTransition
  | SectionErrorIncompleteSectionTitle
  | SectionErrorMissingMatchingUnderlineForOverline
  | SectionErrorOverlineUnderlineMismatch
  | SectionErrorTitleLevelInconsistent
  | InlineMarkupWarningExplicitMarkupWithUnIndent
  deriving DecidableEq, Repr, Fintype

namespace MessageType

/-- Go `messageTypes` array + `String()`: the name of the message type. -/
def goString : MessageType → String
  | ParserMessageNil => "ParserMessageNil"
  | SectionWarningOverlineTooShortForTitle => "SectionWarningOverlineTooShortForTitle"
  | SectionWarningUnexpectedTitleOverlineOrTransition =>
      "SectionWarningUnexpectedTitleOverlineOrTransition"
  | SectionWarningUnderlineTooShortForTitle => "SectionWarningUnderlineTooShortForTitle"
  | SectionWarningShortOverline => "SectionWarningShortOverline"
  | SectionWarningShortUnderline => "SectionWarningShortUnderline"
  | SectionErrorInvalidSectionOrTransitionMarker => "SectionErrorInvalidSectionOrTransitionMarker"
  | SectionErrorUnexpectedSectionTitle => "SectionErrorUnexpectedSectionTitle"
  | SectionErrorUnexpectedSectionTitleOrTransition =>
      "SectionErrorUnexpectedSectionTitleOrTransition"
  | SectionErrorIncompleteSectionTitle => "SectionErrorIncompleteSectionTitle"
  | SectionErrorMissingMatchingUnderlineForOverline =>
      "SectionErrorMissingMatchingUnderlineForOverline"
  | SectionErrorOverlineUnderlineMismatch => "SectionErrorOverlineUnderlineMismatch"
  | SectionErrorTitleLevelInconsistent => "SectionErrorTitleLevelInconsistent"
  | InlineMarkupWarningExplicitMarkupWithUnIndent =>
      "InlineMarkupWarningExplicitMarkupWithUnIndent"

/-- Occurrence of `sub` as a contiguous run inside `s`. -/
def listContains (sub : List Char) : List Char → Bool
  | [] => sub.isEmpty
  | c :: tail => sub.isPrefixOf (c :: tail) || listContains sub tail

/-- Go `strings.Contains(s, substr)`. -/
def goContains (s substr : String) : Bool :=
  listContains substr.toList s.toList

/-- Go `func (m MessageType) level() (s string)`: severity string of a
message type, derived from its name. -/
def level (m : MessageType) : String :=
  if goContains m.goString "Warning" then "WARNING" else "ERROR"

end MessageType

/-! ## Section level registry, `src/parse/parse.go`

The registry keyed by adornment rune: `sectionLevel`, `sectionLevels`,
`Find` and `Add`. -/

/-- Go `type sectionLevel struct` from src/parse/parse.go. -/
structure sectionLevel where
  char : Char
  overline : Bool
  length : Nat
  deriving DecidableEq, Repr

/-- Go `type sectionLevels []sectionLevel`. -/
abbrev sectionLevels := List sectionLevel

namespace sectionLevels

/-- Go `func (s *sectionLevels) Find(adornChar rune) int`: the 1-based
level of the first recorded entry with the given rune, -1 otherwise. -/
def Find (s : sectionLevels) (adornChar : Char) : Int :=
  go s 0
where
  /-- Loop of `Find`: `lvl` counts the entries already passed. -/
  go : sectionLevels → Nat → Int
    | [], _ => -1
    | sec :: rest, lvl => if sec.char = adornChar then (lvl + 1 : Nat) else go rest (lvl + 1)

/-- Go `func (s *sectionLevels) Add(adornChar rune, overline bool, length int) int`:
reuse the recorded level if the rune was seen, otherwise append a new
entry and return the new length.  The updated registry is returned
alongside the level because the Go method mutates the receiver. -/
def Add (s : sectionLevels) (adornChar : Char) (overline : Bool) (length : Nat) :
    sectionLevels × Int :=
  let lvl := Find s adornChar
  if lvl > 0 then (s, lvl)
  else (s ++ [⟨adornChar, overline, length⟩], (s.length + 1 : Nat))

/-- Go `func (s *sectionLevels) Level() int`. -/
def Level (s : sectionLevels) : Nat := s.length

end sectionLevels

/-! ## Character cursor

Modelled from the spec: the lexer's character cursor (spec section 4.1)
is not among the source files; only its test vectors
(`pkg/token/token_test.go`, `lexerNextTests` and friends) are.  The
model below follows the spec's contract for `next()` and reproduces the
test vectors: the input is held line by line, `index` is the byte
offset inside the current line (as in the tests, where a 2-byte
diacritic advances the index by 2), `line` is 1-based, and the
synthetic `EOL` mark is represented by `none`. -/

/-- Byte length of a line, the sum of the UTF-8 sizes of its runes. -/
def byteLen (l : List Char) : Nat := (l.map Char.utf8Size).sum

/-- Rune starting at byte offset `i` of a line, `none` when `i` is past
the end or inside a multi-byte rune. -/
def runeAt : List Char → Nat → Option Char
  | [], _ => none
  | c :: _, 0 => some c
  | c :: cs, i => if i < c.utf8Size then none else runeAt cs (i - c.utf8Size)

/-- Cursor state: the document as lines of runes, the 1-based current
line number and the byte index inside that line. -/
structure Cursor where
  lines : List (List Char)
  line : Nat
  index : Nat
  deriving DecidableEq, Repr

namespace Cursor

/-- Runes of the current line. -/
def currentLine (l : Cursor) : List Char := l.lines.getD (l.line - 1) []

/-- Go `lexer.lineNumber()`. -/
def lineNumber (l : Cursor) : Nat := l.line

/-- Mark under the cursor: `none` is the synthetic `EOL` rune. -/
def mark (l : Cursor) : Option Char := runeAt l.currentLine l.index

/-- Modelled from the spec: `next() -> (rune, width)` advances one rune;
at the end of a line it returns the synthetic `EOL` rune with width 0
without crossing the newline; a second `next()` from `EOL` advances to
the first rune of the following line (which is `EOL` again when that
line is blank); at `EOL` of the last line the cursor stays put. -/
def next (l : Cursor) : (Option Char × Nat) × Cursor :=
  match runeAt l.currentLine l.index with
  | some c =>
      let i := l.index + c.utf8Size
      match runeAt l.currentLine i with
      | some c2 => ((some c2, c2.utf8Size), { l with index := i })
      | none => ((none, 0), { l with index := i })
  | none =>
      if l.line < l.lines.length then
        let l2 : Cursor := { l with line := l.line + 1, index := 0 }
        match runeAt l2.currentLine 0 with
        | some c => ((some c, c.utf8Size), l2)
        | none => ((none, 0), l2)
      else ((none, 0), l)

/-- Document runes split at newline characters. -/
def splitLines : List Char → List (List Char)
  | [] => [[]]
  | c :: rest =>
      let r := splitLines rest
      if c = '\n' then [] :: r else (c :: r.headD []) :: r.tail

/-- Cursor over a document string positioned at byte `index` of
1-based line `line`, as `gotoLocation` produces in the tests. -/
def at_ (s : String) (index line : Nat) : Cursor :=
  ⟨splitLines s.toList, line, index⟩

end Cursor

/-! ## Tokens and parser messages of `src/src/parse`

The complete parser of `src/src/parse/parse.go` is embedded below as a
fuel-indexed state-passing interpreter.  Item kinds are the
`itemElement` constants referenced by that file. -/

/-- Token kinds (`itemElement`) as used by the parse dispatcher. -/
inductive ItemElement where
  | itemEOF | itemText | itemTitle | itemSectionAdornment | itemSpace | itemBlankLine
  | itemEscape | itemCommentMark | itemTransition | itemBlockQuote | itemBullet
  | itemEnumListArabic | itemDefinitionTerm | itemDefinitionText
  | itemInlineEmphasisOpen | itemInlineStrongOpen | itemInlineLiteralOpen
  | itemInlineInterpretedTextOpen | itemInlineInterpretedTextRoleOpen
  | itemSystemMessage | itemLiteralBlock
  deriving DecidableEq, Repr

open ItemElement

/-- Go `type item struct`: a lexer token.  The Go field `Type` is named
`ty` here because `Type` is reserved in Lean. -/
structure Item where
  ty : ItemElement
  Text : String := ""
  Length : Nat := 0
  Line : Nat := 0
  StartPosition : Nat := 0
  deriving DecidableEq, Repr

/-- Go `len(s)` on strings: the UTF-8 byte length. -/
def goLen (s : String) : Nat := byteLen s.toList

/-- Severity levels (`systemMessageLevel`), rendered as in
`systemMessageLevels`. -/
inductive systemMessageLevel where
  | levelInfo | levelWarning | levelError | levelSevere
  deriving DecidableEq, Repr

/-- Parser message constants referenced by `src/src/parse/parse.go`.
The file defining this enumeration for that revision is not among the
sources; the constructor set is exactly the constants the parser
mentions. -/
inductive parserMessage where
  | infoOverlineTooShortForTitle
  | infoUnexpectedTitleOverlineOrTransition
  | infoUnderlineTooShortForTitle
  | warningShortOverline
  | warningShortUnderline
  | warningExplicitMarkupWithUnIndent
  | errorInvalidSectionOrTransitionMarker
  | severeUnexpectedSectionTitle
  | severeUnexpectedSectionTitleOrTransition
  | severeIncompleteSectionTitle
  | severeMissingMatchingUnderlineForOverline
  | severeOverlineUnderlineMismatch
  | severeTitleLevelInconsistent
  deriving DecidableEq, Repr

namespace parserMessage

/-- Modelled from the spec: the severity of a parser message follows
its name (the `severe` subset, `error`, `warning` and `info` levels of
spec section 7 and the `systemMessageLevels` table). -/
def Level : parserMessage → systemMessageLevel
  | infoOverlineTooShortForTitle | infoUnexpectedTitleOverlineOrTransition
  | infoUnderlineTooShortForTitle => .levelInfo
  | warningShortOverline | warningShortUnderline
  | warningExplicitMarkupWithUnIndent => .levelWarning
  | errorInvalidSectionOrTransitionMarker => .levelError
  | _ => .levelSevere

/-- Message text, from the message catalogue shared by all revisions of
the messages package. -/
def Message : parserMessage → String
  | infoOverlineTooShortForTitle =>
      "Possible incomplete section title.\nTreating the overline as ordinary text because it's so short."
  | infoUnexpectedTitleOverlineOrTransition =>
      "Unexpected possible title overline or transition.\nTreating it as ordinary text because it's so short."
  | infoUnderlineTooShortForTitle =>
      "Possible title underline, too short for the title.\nTreating it as ordinary text because it's so short."
  | warningShortOverline => "Title overline too short."
  | warningShortUnderline => "Title underline too short."
  | warningExplicitMarkupWithUnIndent =>
      "Explicit markup ends without a blank line; unexpected unindent."
  | errorInvalidSectionOrTransitionMarker => "Invalid section title or transition marker."
  | severeUnexpectedSectionTitle => "Unexpected section title."
  | severeUnexpectedSectionTitleOrTransition => "Unexpected section title or transition."
  | severeIncompleteSectionTitle => "Incomplete section title."
  | severeMissingMatchingUnderlineForOverline =>
      "Missing matching underline for section title overline."
  | severeOverlineUnderlineMismatch => "Title overline & underline mismatch."
  | severeTitleLevelInconsistent => "Title level inconsistent."

end parserMessage

/-! ## Node model of `src/src/parse/node.go`

Nodes live in an arena (`List NodeData`, node identity = index) because
the Go parser mutates nodes through shared pointers (the node target,
the section registry).  A `NodeList` in a node is the list of arena ids
of its children. -/

/-- Node kinds, `NodeType` of node.go. -/
inductive NodeKind where
  | NodeSection | NodeText | NodeParagraph | NodeAdornment | NodeBlockQuote
  | NodeSystemMessage | NodeLiteralBlock | NodeTransition | NodeTitle | NodeComment
  | NodeBulletList | NodeBulletListItem | NodeEnumList | NodeDefinitionList
  | NodeDefinitionListItem | NodeDefinitionTerm | NodeDefinition
  | NodeInlineEmphasis | NodeInlineStrong | NodeInlineLiteral
  | NodeInlineInterpretedText | NodeInlineInterpretedTextRole
  deriving DecidableEq, Repr

/-- Section title sub-node (`TitleNode`). -/
structure TitleData where
  text : String := ""
  indentLength : Nat := 0
  length : Nat := 0
  line : Nat := 0
  startPosition : Nat := 0
  deriving DecidableEq, Repr

/-- Section adornment sub-node (`AdornmentNode`). -/
structure AdornmentData where
  rune : Char := ' '
  length : Nat := 0
  line : Nat := 0
  startPosition : Nat := 0
  deriving DecidableEq, Repr

/-- One node of the tree, the union of the fields of the node structs
of node.go; unused fields keep their zero value as in Go. -/
structure NodeData where
  kind : NodeKind
  text : String := ""
  length : Nat := 0
  line : Nat := 0
  startPosition : Nat := 0
  bullet : String := ""
  msgType : Option parserMessage := none
  severity : Option systemMessageLevel := none
  level : Nat := 0
  title : Option TitleData := none
  overLine : Option AdornmentData := none
  underLine : Option AdornmentData := none
  children : List Nat := []
  deriving DecidableEq, Repr

/-- Where `Tree.nodeTarget` points: the root `Tree.Nodes` list or the
`NodeList` of an arena node. -/
inductive Target where
  | root
  | intoNode (id : Nat)
  deriving DecidableEq, Repr

/-- Modelled from the spec: the section-level registry used by this
revision (`sectionLevels` with `lastSectionNode` and
`LastSectionByLevel`) is not among the sources; spec section 4.7
describes it as an ordered table of `(rune, has_overline)` patterns
with the most recently placed section retained.  `sections` records
`(level, arena id)` in placement order. -/
structure SecRegistry where
  levels : List (Char × Bool) := []
  sections : List (Nat × Nat) := []
  lastSectionNode : Option (Nat × Nat) := none
  deriving DecidableEq, Repr

namespace SecRegistry

/-- Modelled from the spec: `Add` looks the pattern up; a known pattern
reuses its level, a fresh pattern at the expected next depth gets
`len(levels) + 1` and is recorded, and a fresh pattern at an
already-occupied depth yields `severeTitleLevelInconsistent` without
inserting. -/
def Add (r : SecRegistry) (rune : Char) (hasOverline : Bool) (secId : Nat) :
    SecRegistry × Nat × Option parserMessage :=
  match (r.levels.indexOf? (rune, hasOverline)) with
  | some i =>
      let lvl := i + 1
      ({ r with sections := r.sections ++ [(lvl, secId)],
                 lastSectionNode := some (lvl, secId) }, lvl, none)
  | none =>
      let expected := (match r.lastSectionNode with | some (l, _) => l | none => 0) + 1
      if r.levels.length ≥ expected then
        (r, 0, some parserMessage.severeTitleLevelInconsistent)
      else
        let lvl := r.levels.length + 1
        ({ levels := r.levels ++ [(rune, hasOverline)],
           sections := r.sections ++ [(lvl, secId)],
           lastSectionNode := some (lvl, secId) }, lvl, none)

/-- Modelled from the spec: the most recently placed section of a given
level. -/
def LastSectionByLevel (r : SecRegistry) (lvl : Nat) : Option Nat :=
  (r.sections.reverse.find? (fun p => p.1 = lvl)).map Prod.snd

end SecRegistry

/-- Go `type Tree struct` of src/src/parse/parse.go: the token buffer
(9 slots, `zed = 4`), the lazily pulled lexer stream, the node arena
with the root list and flat message list, the node target, the section
registry and bookkeeping fields. -/
structure Tree where
  buf : List (Option Item)
  lex : List Item
  arena : List NodeData
  Nodes : List Nat
  Messages : List Nat
  nodeTarget : Target
  secLevels : SecRegistry
  sections : List Nat
  openList : Option Nat
  indents : List (Nat × Nat)
  lastEnum : Option Nat
  deriving DecidableEq, Repr

/-- Outcome of an embedded Go computation: a value with the updated
state, a Go runtime panic / `os.Exit`, or exhaustion of loop fuel. -/
inductive Out (α : Type) where
  | ok (a : α) (t : Tree)
  | panic
  | fuelOut
  deriving Repr, DecidableEq

namespace Out

/-- Sequencing of embedded Go computations. -/
def andThen {α β : Type} (o : Out α) (k : α → Tree → Out β) : Out β :=
  match o with
  | .ok a t => k a t
  | .panic => .panic
  | .fuelOut => .fuelOut

end Out

namespace Tree

/-- Middle position of the token buffer (`const zed = 4`). -/
def zedIdx : Nat := 4

/-- Current token `t.token[zed]`. -/
def zed (t : Tree) : Option Item := t.buf.getD 4 none

/-- Fresh parser state over a lexer stream (`New` + `startParse`).
The package-level global `var lastEnum` survives across parser
instances, so `New` receives its current value `g` instead of
resetting it. -/
def New (lexed : List Item) (g : Option Nat) : Tree :=
  { buf := [none, none, none, none, none, none, none, none, none]
    lex := lexed
    arena := []
    Nodes := []
    Messages := []
    nodeTarget := .root
    secLevels := {}
    sections := []
    openList := none
    indents := []
    lastEnum := g }

/-- Allocate a node, returning its arena id. -/
def pushNode (t : Tree) (n : NodeData) : Tree × Nat :=
  ({ t with arena := t.arena ++ [n] }, t.arena.length)

/-- Read an arena node. -/
def node (t : Tree) (id : Nat) : NodeData :=
  t.arena.getD id { kind := .NodeText }

/-- Update an arena node in place. -/
def setNode (t : Tree) (id : Nat) (n : NodeData) : Tree :=
  { t with arena := t.arena.set id n }

/-- Go `l.NodeList.append(n)` on the node list `id` points to. -/
def appendChild (t : Tree) (id : Nat) (child : Nat) : Tree :=
  setNode t id { t.node id with children := (t.node id).children ++ [child] }

/-- Go `t.nodeTarget.append(n)`. -/
def targetAppend (t : Tree) (child : Nat) : Tree :=
  match t.nodeTarget with
  | .root => { t with Nodes := t.Nodes ++ [child] }
  | .intoNode id => t.appendChild id child

/-- Go `backup()`: right-shift the token buffer by one. -/
def backup (t : Tree) : Tree :=
  { t with buf := none :: t.buf.take 8 }

/-- Go `peekBack(pos)`: `t.token[zed-pos]`. -/
def peekBack (t : Tree) (pos : Nat) : Option Item :=
  t.buf.getD (4 - pos) none

/-- Go `peekBackTo(item)`: scan slots 3,2,1,0 for the first token of the
given kind. -/
def peekBackTo (t : Tree) (el : ItemElement) : Option Item :=
  go t 3
where
  go (t : Tree) : Nat → Option Item
    | 0 => match t.buf.getD 0 none with
           | some it => if it.ty = el then some it else none
           | none => none
    | i + 1 => match t.buf.getD (i + 1) none with
               | some it => if it.ty = el then some it else go t i
               | none => go t i

/-- One step of `peek`: fill and read slot `zed + i`; indexing past the
end of the 9-slot buffer is a Go panic. -/
def peekStep (t : Tree) (i : Nat) : Out (Option Item) :=
  if 4 + i ≥ 9 then .panic
  else match t.buf.getD (4 + i) none with
  | some it => .ok (some it) t
  | none =>
      match t.lex with
      | [] => .ok none t
      | x :: rest => .ok (some x) { t with buf := t.buf.set (4 + i) (some x), lex := rest }

/-- Loop of Go `peek(pos)`, iterating `i = 1..pos`. -/
def peekGo (t : Tree) (i : Nat) (acc : Option Item) : Nat → Out (Option Item)
  | 0 => .ok acc t
  | rem + 1 =>
      match t.peekStep i with
      | .ok nItem t1 => peekGo t1 (i + 1) nItem rem
      | _ => .panic

/-- Go `peek(pos)`. -/
def peek (t : Tree) (pos : Nat) : Out (Option Item) :=
  peekGo t 1 t.zed pos

/-- Go `peekSkip(iSkip)`: skip forward over tokens of one kind.  The
loop is bounded because `peek` past the buffer panics, so fuel 9 is
always enough. -/
def peekSkipGo (t : Tree) (el : ItemElement) (count : Nat) : Nat → Out Item
  | 0 => .fuelOut
  | f + 1 =>
      match t.peek count with
      | .ok (some it) t1 =>
          if it.ty = el then peekSkipGo t1 el (count + 1) f else .ok it t1
      | .ok none _ => .panic
      | _ => .panic

/-- Go `peekSkip(iSkip)`. -/
def peekSkip (t : Tree) (el : ItemElement) : Out Item :=
  peekSkipGo t el 1 9

/-- One left shift of the token buffer plus the lexer pull of `next`. -/
def shiftPull (t : Tree) : Tree :=
  let t1 : Tree := { t with buf := t.buf.tail ++ [none] }
  if t1.zed.isNone then
    match t1.lex with
    | [] => t1
    | x :: rest => { t1 with buf := t1.buf.set 4 (some x), lex := rest }
  else t1

/-- Go `next(pos)`: shift `pos` times and return the current token. -/
def next (t : Tree) : Nat → Option Item × Tree
  | 0 => (t.zed, t)
  | pos + 1 =>
      let t1 := t.shiftPull
      if pos > 0 then t1.next pos else (t1.zed, t1)

/-- Go `clearTokens(begin, end)`: null out slots `begin..end`. -/
def clearTokens (t : Tree) (b e : Nat) : Tree :=
  let buf2 := (List.range 9).map (fun i => if b ≤ i ∧ i ≤ e then none else t.buf.getD i none)
  { t with buf := buf2 }

/-- Set the `Line` field of an arena node (`s.Line = ...`). -/
def setLine (t : Tree) (id line : Nat) : Tree :=
  t.setNode id { t.node id with line := line }

/-- Reroute the node target (`t.nodeTarget = ...`). -/
def withTarget (t : Tree) (tg : Target) : Tree := { t with nodeTarget := tg }

/-- Replace the section registry. -/
def withSecLevels (t : Tree) (r : SecRegistry) : Tree := { t with secLevels := r }

/-- Replace the open-list pointer. -/
def withOpenList (t : Tree) (v : Option Nat) : Tree := { t with openList := v }

/-- Replace the indent queue. -/
def withIndents (t : Tree) (v : List (Nat × Nat)) : Tree := { t with indents := v }

/-- Tail of Go `systemMessage`: append the literal block when text was
reconstructed, register the message in the flat `Tree.Messages` list
and return it. -/
def finishSM (t : Tree) (sId : Nat) (lbText : String) (lbTextLen : Nat) : Out Nat :=
  let t :=
    if lbTextLen > 0 then
      let p := t.pushNode { kind := .NodeLiteralBlock, text := lbText, length := lbTextLen }
      p.1.appendChild sId p.2
    else t
  .ok sId { t with Messages := t.Messages ++ [sId] }

/-- Opening steps of `systemMessage`: allocate the `SystemMessageNode`
(`newSystemMessage`) and its `Text` child (`newText` + `append`),
returning the updated state and the message node's id. -/
def smPreamble (t : Tree) (err : parserMessage) (zedTok : Item) : Tree × Nat :=
  let p1 := t.pushNode { kind := .NodeSystemMessage, msgType := some err, severity := some err.Level, line := zedTok.Line }
  let p2 := p1.1.pushNode { kind := .NodeText, text := err.Message, length := goLen err.Message }
  (p2.1.appendChild p1.2 p2.2, p1.2)

/-- Go `func (t *Tree) systemMessage(err parserMessage) Node`
(src/src/parse/parse.go): build the `SystemMessageNode` with its `Text`
child, reconstruct the literal block from the token buffer per message
kind (re-tagging the current token as `itemText` and rewinding for the
`info*` kinds), and register the message in the flat list. -/
def systemMessage (t : Tree) (err : parserMessage) : Out Nat :=
  match t.zed with
  | none => .panic
  | some zedTok =>
  let pre := smPreamble t err zedTok
  let sId := pre.2
  let t := pre.1
  match err with
  | .infoOverlineTooShortForTitle =>
      match t.buf.getD 2 none with
      | some b2 =>
          match t.buf.getD 3 none with
          | some b3 =>
              let inText := b2.Text ++ "\n" ++ b3.Text ++ "\n" ++ zedTok.Text
              let t := { t with buf := t.buf.set 2 none }
              let t := t.setLine sId b2.Line
              let t := { t with buf := t.buf.set 3 none }
              let retag : Item :=
                { zedTok with ty := itemText, Text := inText, Length := goLen inText, Line := b2.Line }
              let t := { t with buf := t.buf.set 4 (some retag) }
              finishSM t.backup sId "" 0
          | none => .panic
      | none =>
          match t.buf.getD 3 none with
          | some b3 =>
              let inText := b3.Text ++ "\n" ++ zedTok.Text
              let t := t.setLine sId b3.Line
              let t := { t with buf := t.buf.set 3 none }
              let retag : Item :=
                { zedTok with ty := itemText, Text := inText, Length := goLen inText, Line := b3.Line }
              let t := { t with buf := t.buf.set 4 (some retag) }
              finishSM t.backup sId "" 0
          | none => .panic
  | .infoUnexpectedTitleOverlineOrTransition =>
      match t.peekBackTo itemSectionAdornment, t.peekBackTo itemTitle with
      | some oLin, some titl =>
          let inText := oLin.Text ++ "\n" ++ titl.Text ++ "\n" ++ zedTok.Text
          let t := t.setLine sId oLin.Line
          let t := t.clearTokens 0 3
          let retag : Item :=
            { ty := itemText, Text := inText, Length := goLen inText, Line := oLin.Line,
              StartPosition := oLin.StartPosition }
          let t := { t with buf := t.buf.set 4 (some retag) }
          finishSM t.backup sId "" 0
      | _, _ => .panic
  | .infoUnderlineTooShortForTitle =>
      match t.buf.getD 3 none with
      | none => .panic
      | some b3 =>
          let inText := b3.Text ++ "\n" ++ zedTok.Text
          let t := t.setLine sId b3.Line
          let t := { t with buf := t.buf.set 3 none }
          let retag : Item :=
            { zedTok with ty := itemText, Text := inText, Length := goLen inText, Line := b3.Line }
          let t := { t with buf := t.buf.set 4 (some retag) }
          finishSM t.backup sId "" 0
  | .warningShortOverline | .severeOverlineUnderlineMismatch =>
      match t.peekBack 2 with
      | none => .panic
      | some pb2 =>
          let backIdx := if pb2.ty = itemSpace then 1 else 2
          let indentStr := if pb2.ty = itemSpace then pb2.Text else ""
          match t.buf.getD backIdx none, t.buf.getD 3 none with
          | some ovl, some ttl =>
              let lbText := ovl.Text ++ "\n" ++ indentStr ++ ttl.Text ++ "\n" ++ zedTok.Text
              finishSM (t.setLine sId ovl.Line) sId lbText (goLen lbText)
          | _, _ => .panic
  | .warningShortUnderline | .severeUnexpectedSectionTitle =>
      match t.peekBack 1 with
      | none => .panic
      | some pb1 =>
          let backIdx := if pb1.ty = itemSpace then 2 else 3
          match t.buf.getD backIdx none, t.buf.getD 3 none with
          | some bk, some b3 =>
              let lbText := bk.Text ++ "\n" ++ zedTok.Text
              finishSM (t.setLine sId b3.Line) sId lbText (goLen lbText)
          | _, _ => .panic
  | .warningExplicitMarkupWithUnIndent =>
      match t.buf.getD 5 none with
      | none => .panic
      | some b5 => finishSM (t.setLine sId b5.Line) sId "" 0
  | .errorInvalidSectionOrTransitionMarker =>
      match t.buf.getD 3 none with
      | none => .panic
      | some b3 =>
          let lbText := b3.Text ++ "\n" ++ zedTok.Text
          finishSM (t.setLine sId b3.Line) sId lbText (goLen lbText)
  | .severeIncompleteSectionTitle | .severeMissingMatchingUnderlineForOverline =>
      match t.buf.getD 2 none, t.buf.getD 3 none with
      | some b2, some b3 =>
          let lbText := b2.Text ++ "\n" ++ b3.Text ++ zedTok.Text
          finishSM (t.setLine sId b2.Line) sId lbText (goLen lbText)
      | _, _ => .panic
  | .severeUnexpectedSectionTitleOrTransition =>
      finishSM (t.setLine sId zedTok.Line) sId zedTok.Text (goLen zedTok.Text)
  | .severeTitleLevelInconsistent =>
      match t.peekBack 2 with
      | none => .panic
      | some pb2 =>
          if pb2.ty = itemSectionAdornment then
            match t.buf.getD 2 none, t.buf.getD 3 none with
            | some b2, some b3 =>
                let lbText := b2.Text ++ "\n" ++ b3.Text ++ "\n" ++ zedTok.Text
                finishSM (t.setLine sId b2.Line) sId lbText (goLen lbText)
            | _, _ => .panic
          else
            match t.buf.getD 3 none with
            | none => .panic
            | some b3 =>
                let lbText := b3.Text ++ "\n" ++ zedTok.Text
                finishSM (t.setLine sId b3.Line) sId lbText (goLen lbText)

/-- Inner `loop` of the overline branch of `section`: consume `Title`
and `Space` tokens until a `SectionAdornment` underline appears at the
current position.  Any other token kind matches no switch case and the
Go loop spins without consuming, hence the fuel. -/
def titleLoop (t : Tree) (title indent : Option Item) :
    Nat → Out (Option Item × Option Item × Item)
  | 0 => .fuelOut
  | f + 1 =>
      match t.zed with
      | none => .panic
      | some tTok =>
          match tTok.ty with
          | itemTitle => titleLoop (t.next 1).2 (some tTok) indent f
          | itemSpace => titleLoop (t.next 1).2 title (some tTok) f
          | itemSectionAdornment => .ok (title, indent, tTok) t
          | _ => titleLoop t title indent f

/-- Tail of `section` after the skeleton tokens are identified: the
overline/underline text mismatch check, `newSection`, the section-level
registration with node-target rerouting, and the length warnings.  A
section node is returned but never appended to a node list. -/
def sectionTail (t : Tree) (overAdorn title underAdorn indent : Option Item) : Out Nat :=
  match overAdorn with
  | some ov =>
      match underAdorn with
      | none => .panic
      | some un =>
          if ov.Text ≠ un.Text then t.systemMessage .severeOverlineUnderlineMismatch
          else sectionBuild t overAdorn title underAdorn indent
  | none => sectionBuild t overAdorn title underAdorn indent
where
  /-- Go `sec := newSection(...)` through the end of `section`. -/
  sectionBuild (t : Tree) (overAdorn title underAdorn indent : Option Item) : Out Nat :=
    match title with
    | none => .panic
    | some ttl =>
    match underAdorn with
    | none => .panic
    | some un =>
    match un.Text.toList with
    | [] => .panic
    | uc :: _ =>
      let indentLen := match indent with | some ind => ind.Length | none => 0
      let overData : Option AdornmentData :=
        match overAdorn with
        | some ov =>
            if ov.Text ≠ "" then
              match ov.Text.toList with
              | oc :: _ => some ⟨oc, ov.Length, ov.Line, ov.StartPosition⟩
              | [] => none
            else none
        | none => none
      let secData : NodeData :=
        { kind := .NodeSection,
          title := some ⟨ttl.Text, indentLen, ttl.Length, ttl.Line, ttl.StartPosition⟩,
          overLine := overData,
          underLine := some ⟨uc, un.Length, un.Line, un.StartPosition⟩ }
      let p := t.pushNode secData
      let secId := p.2
      let r := p.1.secLevels.Add uc overData.isSome secId
      let t := p.1.withSecLevels r.1
      match r.2.2 with
      | some _ => t.systemMessage .severeTitleLevelInconsistent
      | none =>
          let lvl := r.2.1
          let t := t.setNode secId { t.node secId with level := lvl }
          if lvl = 1 then
            sectionLengths (t.withTarget .root) secId overAdorn ttl un indent
          else
            match t.secLevels.LastSectionByLevel (lvl - 1) with
            | none => .panic
            | some lId =>
                sectionLengths (t.withTarget (.intoNode lId)) secId overAdorn ttl un indent
  sectionLengths (t : Tree) (secId : Nat) (overAdorn : Option Item) (ttl un : Item)
      (indent : Option Item) : Out Nat :=
    let oLen := match indent with | some ind => ind.Length + ttl.Length | none => ttl.Length
    match overAdorn with
    | some ov =>
        if oLen > ov.Length then
          (t.systemMessage .warningShortOverline).andThen fun smId t =>
            .ok secId (t.appendChild secId smId)
        else .ok secId t
    | none =>
        if ttl.Length ≠ un.Length then
          (t.systemMessage .warningShortUnderline).andThen fun smId t =>
            .ok secId (t.appendChild secId smId)
        else .ok secId t

/-- Go `func (t *Tree) section(i *item) Node` (src/src/parse/parse.go):
classify the adornment context and either synthesize a diagnostic or
build the section skeleton. -/
def section_ (t : Tree) (i : Item) (fuel : Nat) : Out Nat :=
  let pBack := t.peekBack 1
  (t.peekSkip itemSpace).andThen fun pFor t =>
  match t.zed with
  | none => .panic
  | some zedTok =>
  let tZedLen := zedTok.Length
  if pFor.ty = itemTitle then
    let pBack1 := t.peekBack 1
    if tZedLen < 3 ∧ tZedLen ≠ pFor.Length then
      let t := (t.next 2).2
      match t.peekBack 1 with
      | some b =>
          if b.ty = itemSpace then
            ((t.next 2).2).systemMessage .infoUnexpectedTitleOverlineOrTransition
          else t.systemMessage .infoOverlineTooShortForTitle
      | none => t.systemMessage .infoOverlineTooShortForTitle
    else if pBack1.any (fun pb => pb.ty == itemSpace) then
      t.systemMessage .severeUnexpectedSectionTitleOrTransition
    else
      let t := (t.next 1).2
      (titleLoop t none none fuel).andThen fun r t =>
        sectionTail t (some i) r.1 (some r.2.2) r.2.1
  else if pBack.any (fun pb => pb.ty == itemTitle || pb.ty == itemSpace) then
    match pBack with
    | none => .panic
    | some pb =>
        if pb.ty = itemSpace then
          match t.peekBack 2 with
          | some pb2 =>
              if pb2.ty = itemTitle then t.systemMessage .severeUnexpectedSectionTitle
              else sectionTail t none (some pb) (some i) none
          | none => sectionTail t none (some pb) (some i) none
        else if tZedLen < 3 ∧ tZedLen ≠ pb.Length then
          t.systemMessage .infoUnderlineTooShortForTitle
        else sectionTail t none (some pb) (some i) none
  else if pFor.ty = itemText then
    let t := (t.next 2).2
    if tZedLen < 3 ∧ tZedLen ≠ pFor.Length then
      t.backup.systemMessage .infoOverlineTooShortForTitle
    else
      (t.peek 1).andThen fun p t =>
        match p with
        | some pp =>
            if pp.ty = itemBlankLine then
              t.systemMessage .severeMissingMatchingUnderlineForOverline
            else t.systemMessage .severeIncompleteSectionTitle
        | none => t.systemMessage .severeIncompleteSectionTitle
  else if pFor.ty = itemSectionAdornment then
    ((t.next 1).2).systemMessage .errorInvalidSectionOrTransitionMarker
  else if pFor.ty = itemEOF then
    t.systemMessage .errorInvalidSectionOrTransitionMarker
  else
    sectionTail t none none none none

end Tree

namespace Tree

/-- NodeData for `newText(i)`. -/
def textNode (i : Item) : NodeData :=
  { kind := .NodeText, text := i.Text, length := i.Length, line := i.Line,
    startPosition := i.StartPosition }

/-- NodeData for the inline node constructors of node.go, which all
copy the same item fields. -/
def inlineNode (k : NodeKind) (i : Item) : NodeData :=
  { kind := k, text := i.Text, length := i.Length, line := i.Line,
    startPosition := i.StartPosition }

/-- Go `inlineEmphasis` / `inlineStrong` / `inlineLiteral` /
`inlineInterpretedTextRole`: consume the open token, append the inline
node built from the payload token, consume the close token. -/
def inlineSimple (t : Tree) (k : NodeKind) : Out Unit :=
  let t := (t.next 1).2
  match t.zed with
  | none => .panic
  | some z =>
      let p := t.pushNode (inlineNode k z)
      let t := p.1.targetAppend p.2
      .ok () (t.next 1).2

/-- Go `inlineInterpretedText`: like the simple inline handlers, plus
an optional role child. -/
def inlineInterpretedText (t : Tree) : Out Unit :=
  let t := (t.next 1).2
  match t.zed with
  | none => .panic
  | some z =>
      let p := t.pushNode (inlineNode .NodeInlineInterpretedText z)
      let nId := p.2
      let t := p.1.targetAppend nId
      let t := (t.next 1).2
      (t.peek 1).andThen fun p1 t =>
        match p1 with
        | none => .panic
        | some pk =>
            if pk.ty = itemInlineInterpretedTextRoleOpen then
              let t := (t.next 2).2
              match t.zed with
              | none => .panic
              | some z2 =>
                  let p2 := t.pushNode (inlineNode .NodeInlineInterpretedTextRole z2)
                  let t := p2.1.appendChild nId p2.2
                  .ok () (t.next 1).2
            else .ok () t

/-- Go `blockquote`: a stub appending a `BlockQuoteNode` directly to
`Tree.Nodes`. -/
def blockquote (t : Tree) (i : Item) : Tree :=
  let p := t.pushNode { kind := .NodeBlockQuote, line := i.Line }
  { p.1 with Nodes := p.1.Nodes ++ [p.2] }

/-- Go `enumList`: the construction is entirely commented out in this
revision; `eNode` stays nil and is stored into the package-level
`lastEnum`. -/
def enumList (t : Tree) (_i : Item) : Option Nat × Tree :=
  (none, { t with lastEnum := none })

/-- Exit of the `paragraph` loop: restore the node target from the
indent queue or the root list. -/
def paraExit (t : Tree) (npId : Nat) : Out Nat :=
  if t.indents.length > 0 then
    match t.indents.getLast? with
    | some (_, id) => .ok npId (t.withTarget (.intoNode id))
    | none => .panic
  else .ok npId (t.withTarget .root)

end Tree

/-- Inner loop of the comment block concatenation: append the current
token's text, then continue while an indented text line follows. -/
def commentLoop (t : Tree) (acc : String) : Nat → Out String
  | 0 => .fuelOut
  | f + 1 =>
      match t.zed with
      | none => .panic
      | some z =>
          let acc := acc ++ "\n" ++ z.Text
          (t.peek 1).andThen fun p1 t =>
            match p1 with
            | none => .panic
            | some p1 =>
                if p1.ty = itemSpace then
                  (t.peek 2).andThen fun p2 t =>
                    match p2 with
                    | none => .panic
                    | some p2 =>
                        if p2.ty = itemText then commentLoop (t.next 2).2 acc f
                        else .ok acc t
                else .ok acc t

/-- Go `func (t *Tree) comment(i *item) Node` (src/src/parse/parse.go).
The Go code mutates the text of the peeked item through its pointer;
here the accumulated text is kept as a value and the comment node is
built from it. -/
def Tree.comment (t : Tree) (i : Item) (fuel : Nat) : Out (Option Nat) :=
  (t.peek 1).andThen fun p1 t =>
    match p1 with
    | none => .panic
    | some p1 =>
    if p1.ty = itemBlankLine then
      let p := t.pushNode { kind := .NodeComment, startPosition := i.StartPosition, line := i.Line }
      .ok (some p.2) (p.1.targetAppend p.2)
    else
      (t.peek 1).andThen fun nSpace t =>
        match nSpace with
        | none => commentBody t i fuel
        | some ns =>
            if ns.ty ≠ itemSpace then
              let p := t.pushNode { kind := .NodeComment, line := i.Line }
              let t := p.1.targetAppend p.2
              (t.systemMessage .warningExplicitMarkupWithUnIndent).andThen fun smId t =>
                .ok (some p.2) (t.targetAppend smId)
            else commentBody t i fuel
where
  commentBody (t : Tree) (_i : Item) (fuel : Nat) : Out (Option Nat) :=
    (t.peek 2).andThen fun nPara t =>
      match nPara with
      | none => .panic
      | some nPara =>
          if nPara.ty = itemText then
            let t := (t.next 2).2
            (t.peek 1).andThen fun q1 t =>
              match q1 with
              | none => .panic
              | some q1 =>
                  if q1.ty = itemSpace then
                    (t.peek 2).andThen fun q2 t =>
                      match q2 with
                      | none => .panic
                      | some q2 =>
                          if q2.ty = itemText then
                            let t := (t.next 2).2
                            (commentLoop t nPara.Text fuel).andThen fun acc t =>
                              let nd : NodeData := { kind := .NodeComment, text := acc, length := goLen acc, startPosition := nPara.StartPosition, line := nPara.Line }
                              let p := t.pushNode nd
                              .ok (some p.2) (p.1.targetAppend p.2)
                          else commentTail t nPara
                  else commentTail t nPara
          else .panic
  commentTail (t : Tree) (nPara : Item) : Out (Option Nat) :=
    let nd : NodeData := { kind := .NodeComment, text := nPara.Text, length := nPara.Length, startPosition := nPara.StartPosition, line := nPara.Line }
    (t.peek 1).andThen fun z t =>
      match z with
      | some z =>
          if z.ty ≠ itemBlankLine ∧ z.ty ≠ itemCommentMark ∧ z.ty ≠ itemEOF then
            let p := t.pushNode nd
            let t := p.1.targetAppend p.2
            (t.systemMessage .warningExplicitMarkupWithUnIndent).andThen fun smId t =>
              .ok (some p.2) (t.targetAppend smId)
          else
            let p := t.pushNode nd
            .ok (some p.2) (p.1.targetAppend p.2)
      | none =>
          let p := t.pushNode nd
          .ok (some p.2) (p.1.targetAppend p.2)

/-- Loop of Go `paragraph`: aggregate text and inline elements until a
blank line or the end of input. -/
def paraLoop (t : Tree) (npId ntId : Nat) : Nat → Out Nat
  | 0 => .fuelOut
  | f + 1 =>
      let r := t.next 1
      let t := r.2
      match r.1 with
      | none => t.paraExit npId
      | some ci =>
          let pi_ := t.peekBack 1
          if ci.ty = itemEOF then t.paraExit npId
          else if pi_.any (fun pi => pi.ty == itemText) ∧ ci.ty = itemText then
            let nd := t.node ntId
            let txt := nd.text ++ "\n" ++ ci.Text
            let t := t.setNode ntId { nd with text := txt, length := goLen txt }
            paraLoop t npId ntId f
          else
            match ci.ty with
            | itemText =>
                if pi_.any (fun pi => pi.ty == itemEscape && pi.StartPosition > ci.StartPosition) then
                  let nd := t.node ntId
                  let txt := nd.text ++ ci.Text
                  let t := t.setNode ntId { nd with text := txt, length := goLen txt }
                  paraLoop t npId ntId f
                else
                  let p := t.pushNode (Tree.textNode ci)
                  let t := p.1.targetAppend p.2
                  paraLoop t npId p.2 f
            | itemInlineEmphasisOpen =>
                (t.inlineSimple .NodeInlineEmphasis).andThen fun _ t => paraLoop t npId ntId f
            | itemInlineStrongOpen =>
                (t.inlineSimple .NodeInlineStrong).andThen fun _ t => paraLoop t npId ntId f
            | itemInlineLiteralOpen =>
                (t.inlineSimple .NodeInlineLiteral).andThen fun _ t => paraLoop t npId ntId f
            | itemInlineInterpretedTextOpen =>
                t.inlineInterpretedText.andThen fun _ t => paraLoop t npId ntId f
            | itemInlineInterpretedTextRoleOpen =>
                (t.inlineSimple .NodeInlineInterpretedTextRole).andThen fun _ t =>
                  paraLoop t npId ntId f
            | itemCommentMark =>
                (t.comment ci f).andThen fun _ t => paraLoop t npId ntId f
            | itemBlankLine => t.backup.paraExit npId
            | _ => paraLoop t npId ntId f

/-- Go `func (t *Tree) paragraph(i *item) Node`. -/
def Tree.paragraph (t : Tree) (i : Item) (fuel : Nat) : Out Nat :=
  let p := t.pushNode { kind := .NodeParagraph }
  let npId := p.2
  let t := p.1.targetAppend npId
  let t := t.withTarget (.intoNode npId)
  let p2 := t.pushNode (Tree.textNode i)
  let ntId := p2.2
  let t := p2.1.targetAppend ntId
  paraLoop t npId ntId fuel

/-- Go `subParseBodyElements`. -/
def subParse (t : Tree) (token : Item) (fuel : Nat) : Out (Option Nat) :=
  match token.ty with
  | itemText => (t.paragraph token fuel).andThen fun n t => .ok (some n) t
  | itemInlineEmphasisOpen =>
      (t.inlineSimple .NodeInlineEmphasis).andThen fun _ t => .ok none t
  | itemInlineStrongOpen =>
      (t.inlineSimple .NodeInlineStrong).andThen fun _ t => .ok none t
  | itemInlineLiteralOpen =>
      (t.inlineSimple .NodeInlineLiteral).andThen fun _ t => .ok none t
  | itemInlineInterpretedTextOpen =>
      t.inlineInterpretedText.andThen fun _ t => .ok none t
  | itemInlineInterpretedTextRoleOpen =>
      (t.inlineSimple .NodeInlineInterpretedTextRole).andThen fun _ t => .ok none t
  | itemCommentMark => (t.comment token fuel).andThen fun _ t => .ok none t
  | itemEnumListArabic => let r := t.enumList token; .ok none r.2
  | itemSpace => .ok none t
  | itemBlankLine => .ok none t
  | itemEscape => .ok none t
  | itemBlockQuote => .ok none (t.blockquote token)
  | _ => .ok none t

/-- Loop of Go `definitionTerm`, gathering definitions and body
elements. -/
def dtLoop (t : Tree) (dlId firstDefId : Nat) : Nat → Out Nat
  | 0 => .fuelOut
  | f + 1 =>
      let r := t.next 1
      let t := r.2
      match r.1 with
      | none => .ok dlId t
      | some ni =>
          let pb := t.peekBack 1
          if ni.ty = itemSpace then dtLoop t dlId firstDefId f
          else if ni.ty = itemEOF then .ok dlId t
          else if ni.ty = itemBlankLine then
            let t := t.withTarget (.intoNode firstDefId)
            (subParse t ni f).andThen fun _ t => dtLoop t dlId firstDefId f
          else if ni.ty = itemCommentMark ∧ pb.any (fun b => b.ty != itemSpace) then
            .ok dlId (t.withTarget .root).backup
          else if ni.ty = itemDefinitionText then
            let p := t.pushNode { kind := .NodeParagraph }
            let t := p.1
            let p2 := t.pushNode (Tree.textNode ni)
            let t := p2.1.appendChild p.2 p2.2
            let t := t.targetAppend p.2
            let t := t.withTarget (.intoNode p.2)
            dtLoop t dlId firstDefId f
          else if ni.ty = itemDefinitionTerm then
            (t.peek 2).andThen fun _ t =>
              let termData : NodeData := { kind := .NodeDefinitionTerm, text := ni.Text, length := ni.Length, line := ni.Line, startPosition := ni.StartPosition }
              let pTerm := t.pushNode termData
              let pDef := pTerm.1.pushNode { kind := .NodeDefinition }
              let pItem := pDef.1.pushNode { kind := .NodeDefinitionListItem, children := [pTerm.2, pDef.2] }
              let t := pItem.1.withTarget (.intoNode dlId)
              let t := t.targetAppend pItem.2
              let t := t.withTarget (.intoNode pDef.2)
              dtLoop t dlId firstDefId f
          else
            (subParse t ni f).andThen fun _ t => dtLoop t dlId firstDefId f

/-- Go `func (t *Tree) definitionTerm(i *item) Node`.  The `Term` and
`Definition` sub-nodes of a `DefinitionListItemNode` are stored in its
child list. -/
def Tree.definitionTerm (t : Tree) (i : Item) (fuel : Nat) : Out Nat :=
  let p := t.pushNode { kind := .NodeDefinitionList }
  let dlId := p.2
  let t := p.1.targetAppend dlId
  let t := t.withTarget (.intoNode dlId)
  let t := (t.next 1).2
  (t.peek 1).andThen fun _ t =>
    let termData : NodeData := { kind := .NodeDefinitionTerm, text := i.Text, length := i.Length, line := i.Line, startPosition := i.StartPosition }
    let pTerm := t.pushNode termData
    let pDef := pTerm.1.pushNode { kind := .NodeDefinition }
    let pItem := pDef.1.pushNode { kind := .NodeDefinitionListItem, children := [pTerm.2, pDef.2] }
    let t := pItem.1.targetAppend pItem.2
    let t := t.withTarget (.intoNode pDef.2)
    dtLoop t dlId pDef.2 fuel

/-- Loop of Go `bulletList`, capturing bullet items until un-indent;
the `os.Exit(1)` on an unexpected un-indent is a terminal outcome
modelled as a panic. -/
def blLoop (t : Tree) : Nat → Out Unit
  | 0 => .fuelOut
  | f + 1 =>
      let r := t.next 1
      let t := r.2
      match r.1 with
      | none => .ok () t
      | some ni =>
          if ni.ty = itemEOF then .ok () t
          else
            let guard1 : Bool := decide (t.indents.length > 0) &&
              (match t.indents.getLast? with
               | some (_, id) => decide ((t.node id).children.length > 0)
               | none => false)
            if guard1 then
              match t.peekBack 1 with
              | none => .panic
              | some pb1 =>
                  if pb1.ty = itemSpace then
                    match t.peekBack 2 with
                    | none => .panic
                    | some pb2 =>
                        if pb2.ty ≠ itemCommentMark then
                          let lastSP := match t.indents.getLast? with
                            | some (sp, _) => sp
                            | none => 0
                          if lastSP ≠ ni.StartPosition then .panic
                          else (subParse t ni f).andThen fun _ t => blLoop t f
                        else (subParse t ni f).andThen fun _ t => blLoop t f
                  else (subParse t ni f).andThen fun _ t => blLoop t f
            else (subParse t ni f).andThen fun _ t => blLoop t f

/-- Go `func (t *Tree) bulletList(i *item)`. -/
def Tree.bulletList (t : Tree) (i : Item) (fuel : Nat) : Out Unit :=
  let p := t.pushNode { kind := .NodeBulletList, bullet := i.Text, line := i.Line }
  let blId := p.2
  let t := p.1.withOpenList (some blId)
  let t := t.targetAppend blId
  let t := t.withTarget (.intoNode blId)
  let t := (t.next 1).2
  let p2 := t.pushNode { kind := .NodeBulletListItem, line := i.Line }
  let bliId := p2.2
  let t := p2.1.targetAppend bliId
  let t := t.withTarget (.intoNode bliId)
  let t := t.withIndents (t.indents ++ [(i.StartPosition, bliId)])
  (blLoop t fuel).andThen fun _ t =>
    .ok () (t.withIndents t.indents.dropLast)

/-- Main dispatch loop of Go `parse` (src/src/parse/parse.go): pull one
token, stop at nil or `EOF`, otherwise dispatch on the token kind. -/
def parseLoop (t : Tree) : Nat → Out Unit
  | 0 => .fuelOut
  | f + 1 =>
      let r := t.next 1
      let t := r.2
      match r.1 with
      | none => .ok () t
      | some token =>
          if token.ty = itemEOF then .ok () t
          else
            match token.ty with
            | itemText => (t.paragraph token f).andThen fun _ t => parseLoop t f
            | itemInlineEmphasisOpen =>
                (t.inlineSimple .NodeInlineEmphasis).andThen fun _ t => parseLoop t f
            | itemInlineStrongOpen =>
                (t.inlineSimple .NodeInlineStrong).andThen fun _ t => parseLoop t f
            | itemInlineLiteralOpen =>
                (t.inlineSimple .NodeInlineLiteral).andThen fun _ t => parseLoop t f
            | itemInlineInterpretedTextOpen =>
                t.inlineInterpretedText.andThen fun _ t => parseLoop t f
            | itemInlineInterpretedTextRoleOpen =>
                (t.inlineSimple .NodeInlineInterpretedTextRole).andThen fun _ t => parseLoop t f
            | itemTransition =>
                let nd : NodeData := { kind := .NodeTransition, text := token.Text, length := token.Length, line := token.Line, startPosition := token.StartPosition }
                parseLoop (t.pushNode nd).1 f
            | itemCommentMark => (t.comment token f).andThen fun _ t => parseLoop t f
            | itemSectionAdornment => (t.section_ token f).andThen fun _ t => parseLoop t f
            | itemEnumListArabic => let r2 := t.enumList token; parseLoop r2.2 f
            | itemSpace => parseLoop t f
            | itemBlankLine => parseLoop t f
            | itemTitle => parseLoop t f
            | itemEscape => parseLoop t f
            | itemBlockQuote => parseLoop (t.blockquote token) f
            | itemDefinitionTerm => (t.definitionTerm token f).andThen fun _ t => parseLoop t f
            | itemBullet => (t.bulletList token f).andThen fun _ t => parseLoop t f
            | _ => parseLoop t f

/-- Go top-level `Parse` over an already-lexed token stream, starting
from a fresh parser state that inherits the package-level `lastEnum`
global `g`. -/
def ParseTokens (lexed : List Item) (g : Option Nat) (fuel : Nat) : Out Unit :=
  parseLoop (Tree.New lexed g) fuel

/-! ## Section placement of `pkg/parser/section.go`

The later parser revision appends the section node to the node target
chosen by `checkSectionLevel`.  `checkSectionLevel` and the tail of
`Parser.section` are in the sources; the `NodeTarget` collaborator
(`Reset` to the root, `SetParent` into a node, `Append`) and the
registry are modelled from the spec (sections 4.7, and `SecRegistry`
above). -/

/-- State of the pkg parser relevant to section placement: the node
arena, the root list, the current node target and the registry. -/
structure PkgState where
  arena : List NodeData
  Nodes : List Nat
  target : Target
  reg : SecRegistry
  deriving DecidableEq, Repr

namespace PkgState

/-- Allocate a node. -/
def push (st : PkgState) (n : NodeData) : PkgState × Nat :=
  ({ st with arena := st.arena ++ [n] }, st.arena.length)

/-- Read an arena node. -/
def node (st : PkgState) (id : Nat) : NodeData :=
  st.arena.getD id { kind := .NodeText }

/-- Append a child to a node's list. -/
def appendChild (st : PkgState) (id child : Nat) : PkgState :=
  { st with arena := st.arena.set id { st.node id with children := (st.node id).children ++ [child] } }

/-- Go `p.nodeTarget.Append(n)`. -/
def targetAppend (st : PkgState) (child : Nat) : PkgState :=
  match st.target with
  | .root => { st with Nodes := st.Nodes ++ [child] }
  | .intoNode id => st.appendChild id child

/-- Go `func checkSectionLevel` (pkg/parser/section.go): register the
section; on an inconsistent level, attach the diagnostic to the last
good section and park the target there; otherwise route the target to
the document root for level 1 or to the last section one level up. -/
def checkSectionLevel (st : PkgState) (secId : Nat) (rune : Char) (hasOverline : Bool) :
    PkgState × Option Nat :=
  let r := st.reg.Add rune hasOverline secId
  match r.2.2 with
  | some _ =>
      let p := st.push { kind := .NodeSystemMessage,
                         msgType := some .severeTitleLevelInconsistent }
      match st.reg.lastSectionNode with
      | some (_, lastId) =>
          let st2 := p.1.appendChild lastId p.2
          ({ st2 with target := .intoNode lastId }, some p.2)
      | none => (p.1, some p.2)
  | none =>
      let lvl := r.2.1
      let st := { st with reg := r.1 }
      let st := { st with arena := st.arena.set secId { st.node secId with level := lvl } }
      if lvl = 1 then ({ st with target := .root }, none)
      else
        match st.reg.LastSectionByLevel (lvl - 1) with
        | some lId => ({ st with target := .intoNode lId }, none)
        | none => (st, none)

/-- Go `func checkSectionLengths` (pkg/parser/section.go): append the
short-overline / short-underline warnings into the section's own child
list. -/
def checkSectionLengths (st : PkgState) (secId : Nat) (titleLen indentLen : Nat)
    (overLen : Option Nat) (underLen : Nat) : PkgState :=
  let oLen := indentLen + titleLen
  match overLen with
  | some ov =>
      if oLen > ov then
        let p := st.push { kind := .NodeSystemMessage, msgType := some .warningShortOverline }
        p.1.appendChild secId p.2
      else st
  | none =>
      if titleLen ≠ underLen then
        let p := st.push { kind := .NodeSystemMessage, msgType := some .warningShortUnderline }
        p.1.appendChild secId p.2
      else st

/-- Tail of Go `Parser.section` (pkg/parser/section.go lines 199-211)
for a well-formed skeleton: build the `SectionNode`, run
`checkSectionLevel` and `checkSectionLengths`, then `Append` the
section at the current target and make it the new parent. -/
def sectionOk (st : PkgState) (titleText : String) (titleLen : Nat)
    (overRune : Option (Char × Nat)) (underRune : Char) (underLen : Nat)
    (indentLen : Nat) : PkgState × Nat :=
  let secData : NodeData :=
    { kind := .NodeSection,
      title := some { text := titleText, indentLength := indentLen, length := titleLen },
      overLine := (overRune.map fun (c, l) => { rune := c, length := l }),
      underLine := some { rune := underRune, length := underLen } }
  let p := st.push secData
  let secId := p.2
  let r := p.1.checkSectionLevel secId underRune overRune.isSome
  match r.2 with
  | some smId => (r.1, smId)
  | none =>
      let st := r.1.checkSectionLengths secId titleLen indentLen
                  (overRune.map Prod.snd) underLen
      let st := st.targetAppend secId
      ({ st with target := .intoNode secId }, secId)

end PkgState

/-! ## Helper lemmas and concrete streams -/

/-- EOF token. -/
def eofTok : Item := { ty := itemEOF }

/-- Final tree of a run, with a default for panic / fuel exhaustion. -/
def Out.treeD {α : Type} (o : Out α) (d : Tree) : Tree :=
  match o with
  | .ok _ t => t
  | _ => d

/-- Message types recorded in the flat `Messages` list of a tree. -/
def flatTypes (t : Tree) : List (Option parserMessage) :=
  t.Messages.map fun id => (t.node id).msgType

/-- Count of `SystemMessage` nodes among the ids and all their
descendants, depth bounded by `fuel`. -/
def countSMList (t : Tree) : Nat → List Nat → Nat
  | 0, _ => 0
  | f + 1, ids =>
      ids.foldl (fun acc id =>
        acc + (if (t.node id).kind = .NodeSystemMessage then 1 else 0) +
          countSMList t f (t.node id).children) 0

/-- Number of `SystemMessage` descendants of the tree rooted at
`Tree.Nodes` (children ids always exceed their parent's id, so the
arena size bounds the depth). -/
def treeSMCount (t : Tree) : Nat :=
  countSMList t (t.arena.length + 1) t.Nodes

/-- Past the byte length of a line there is no rune. -/
theorem runeAt_none_of_ge : ∀ (cs : List Char) (i : Nat), byteLen cs ≤ i → runeAt cs i = none := by
  intro cs
  induction cs with
  | nil => intro i _; cases i <;> rfl
  | cons c cs ih =>
      intro i hle
      have hpos : 0 < c.utf8Size := Char.utf8Size_pos c
      have hbl : byteLen (c :: cs) = c.utf8Size + byteLen cs := by
        simp [byteLen]
      rw [hbl] at hle
      cases i with
      | zero => exact absurd hle (by omega)
      | succ j =>
          have h1 : ¬ (j + 1 < c.utf8Size) := by omega
          have h2 : byteLen cs ≤ j + 1 - c.utf8Size := by omega
          simp only [runeAt, h1, if_false]
          exact ih _ h2

/-! ## Claim theorems -/

/-- C3: for every diagnostic message type, the severity string attached
by `level` is WARNING exactly for the six Warning-named types of the
taxonomy and ERROR for every other type. -/
theorem C3_severity_from_name :
    ∀ m : MessageType,
      (m.level = "WARNING" ↔
        m ∈ [MessageType.SectionWarningOverlineTooShortForTitle,
          MessageType.SectionWarningUnexpectedTitleOverlineOrTransition,
          MessageType.SectionWarningUnderlineTooShortForTitle,
          MessageType.SectionWarningShortOverline,
          MessageType.SectionWarningShortUnderline,
          MessageType.InlineMarkupWarningExplicitMarkupWithUnIndent]) ∧
      (m.level = "ERROR" ↔
        m ∉ [MessageType.SectionWarningOverlineTooShortForTitle,
          MessageType.SectionWarningUnexpectedTitleOverlineOrTransition,
          MessageType.SectionWarningUnderlineTooShortForTitle,
          MessageType.SectionWarningShortOverline,
          MessageType.SectionWarningShortUnderline,
          MessageType.InlineMarkupWarningExplicitMarkupWithUnIndent]) := by
  decide

/-- C1: the registry assigns levels by order of first encounter: a
pattern not recorded before gets `len(levels) + 1` and is recorded, a
known pattern reuses its previously assigned level without growing the
registry; the adornment order `=`, `-`, `=` therefore yields levels
1, 2, 1, and in the parser's placement flow the third section is
appended to the document root as a sibling of the first. -/
theorem C1_level_assignment :
    (∀ (s : sectionLevels) (c : Char) (o : Bool) (l : Nat),
        sectionLevels.Find s c = -1 →
        sectionLevels.Add s c o l = (s ++ [⟨c, o, l⟩], ((s.length + 1 : Nat) : Int)))
    ∧ (∀ (s : sectionLevels) (c : Char) (o : Bool) (l : Nat) (lvl : Int),
        sectionLevels.Find s c = lvl → 0 < lvl →
        sectionLevels.Add s c o l = (s, lvl))
    ∧ ((sectionLevels.Add [] '=' false 4).2 = 1 ∧
       (sectionLevels.Add (sectionLevels.Add [] '=' false 4).1 '-' false 4).2 = 2 ∧
       (sectionLevels.Add (sectionLevels.Add (sectionLevels.Add [] '=' false 4).1
          '-' false 4).1 '=' false 4).2 = 1)
    ∧ (let p0 : PkgState := ⟨[], [], .root, {}⟩
       let p1 := p0.sectionOk "T1" 4 none '=' 4 0
       let p2 := p1.1.sectionOk "T2" 4 none '-' 4 0
       let p3 := p2.1.sectionOk "T3" 4 none '=' 4 0
       p3.1.Nodes = [p1.2, p3.2] ∧ (p3.1.node p1.2).level = 1 ∧
       (p3.1.node p2.2).level = 2 ∧ (p3.1.node p3.2).level = 1 ∧
       (p3.1.node p1.2).children = [p2.2]) := by
  refine ⟨?_, ?_, by decide, by decide⟩
  · intro s c o l h
    have : ¬ sectionLevels.Find s c > 0 := by rw [h]; decide
    simp [sectionLevels.Add, h, this]
  · intro s c o l lvl h hpos
    have hgt : sectionLevels.Find s c > 0 := by rw [h]; exact hpos
    simp [sectionLevels.Add, hgt, h, hpos]

/-- C1 witness: the general clauses applied at concrete registries. -/
theorem C1_level_assignment_witness :
    sectionLevels.Add [] '=' false 4 = ([⟨'=', false, 4⟩], 1) ∧
    sectionLevels.Add [⟨'=', false, 4⟩, ⟨'-', false, 4⟩] '=' true 3 =
      ([⟨'=', false, 4⟩, ⟨'-', false, 4⟩], 1) := by
  constructor
  · have h := C1_level_assignment.1 [] '=' false 4 (by decide)
    simpa using h
  · have h := C1_level_assignment.2.1 [⟨'=', false, 4⟩, ⟨'-', false, 4⟩] '=' true 3 1
      (by decide) (by decide)
    simpa using h

/-- C7: at the last rune of a line, `next()` returns the synthetic EOL
rune with width 0 and keeps the line number; a second `next()` from the
EOL position moves to the first rune of the following (nonempty) line. -/
theorem C7_cursor_eol_next :
    (∀ (l : Cursor) (c : Char), runeAt l.currentLine l.index = some c →
        l.index + c.utf8Size = byteLen l.currentLine →
        l.next = ((none, 0), { l with index := l.index + c.utf8Size }) ∧
        (l.next.2).lineNumber = l.lineNumber)
    ∧ (∀ (l : Cursor) (d : Char) (ds : List Char),
        runeAt l.currentLine l.index = none →
        l.line < l.lines.length →
        l.lines.getD l.line [] = d :: ds →
        l.next = ((some d, d.utf8Size), { l with line := l.line + 1, index := 0 })) := by
  constructor
  · intro l c hc hlen
    have hnone : runeAt l.currentLine (l.index + c.utf8Size) = none :=
      runeAt_none_of_ge _ _ (le_of_eq hlen.symm)
    constructor
    · simp only [Cursor.next, hc, hnone]
    · simp only [Cursor.next, hc, hnone, Cursor.lineNumber]
  · intro l d ds hnone hlt hline
    have hcur : ({ l with line := l.line + 1, index := 0 } : Cursor).currentLine = d :: ds := by
      simpa [Cursor.currentLine] using hline
    simp only [Cursor.next, hnone, hlt, if_true, hcur, runeAt]

/-- C7 witness: the `lexerNextTests` vectors at the last rune of the
last line and at the end of the first line. -/
theorem C7_cursor_eol_next_witness :
    (Cursor.at_ "Hello\n\nworld\nyeah!" 4 4).next =
      ((none, 0), Cursor.at_ "Hello\n\nworld\nyeah!" 5 4) ∧
    (Cursor.at_ "Title\nà diacritic" 5 1).next =
      ((some 'à', 2), Cursor.at_ "Title\nà diacritic" 0 2) := by
  constructor
  · have h := (C7_cursor_eol_next.1 (Cursor.at_ "Hello\n\nworld\nyeah!" 4 4) '!'
      (by decide) (by decide)).1
    simpa using h
  · have h := C7_cursor_eol_next.2 (Cursor.at_ "Title\nà diacritic" 5 1) 'à'
      " diacritic".toList (by decide) (by decide) (by decide)
    simpa using h

/-- C8: `backup()` right-shifts the buffer so the zed slot holds the
previously consumed token, and `next(1)` after `backup()` restores the
current token without consuming from the lexer. -/
theorem C8_backup_next_roundtrip :
    ∀ (t : Tree) (z : Item), t.zed = some z →
      t.backup.zed = t.buf.getD 3 none ∧
      (t.backup.next 1).1 = some z ∧
      ((t.backup.next 1).2).zed = some z ∧
      ((t.backup.next 1).2).lex = t.lex := by
  intro t z hz
  rw [Tree.zed] at hz
  have hlen : 4 < t.buf.length := by
    by_contra hle
    push_neg at hle
    rw [List.getD_eq_getElem?_getD, List.getElem?_eq_none (by omega)] at hz
    cases hz
  have htake : (t.buf.take 8).getD 4 none = some z := by
    rw [List.getD_eq_getElem?_getD, List.getElem?_take]
    simpa [List.getD_eq_getElem?_getD] using hz
  have hlt : 4 < (t.buf.take 8).length := by
    simp only [List.length_take]
    omega
  have hzz : t.backup.zed = t.buf.getD 3 none := by
    show (none :: t.buf.take 8).getD 4 none = t.buf.getD 3 none
    simp only [List.getD_eq_getElem?_getD, List.getElem?_cons_succ, List.getElem?_take]
    simp
  refine ⟨hzz, ?_⟩
  have hzed2 : ({ t with buf := t.buf.take 8 ++ [none] } : Tree).zed = some z := by
    show (t.buf.take 8 ++ [none]).getD 4 none = some z
    rw [List.getD_eq_getElem?_getD, List.getElem?_append_left hlt]
    rw [List.getD_eq_getElem?_getD] at htake
    exact htake
  have hshift : t.backup.shiftPull = { t with buf := t.buf.take 8 ++ [none] } := by
    have hz1 : (({ t with buf := t.buf.take 8 ++ [none] } : Tree)).zed.isNone = false := by
      rw [hzed2]
      rfl
    show Tree.shiftPull { t with buf := none :: t.buf.take 8 } = _
    simp only [Tree.shiftPull, List.tail_cons, hz1]
    simp
  have hnext : t.backup.next 1 = (t.backup.shiftPull.zed, t.backup.shiftPull) := rfl
  rw [hnext, hshift]
  exact ⟨hzed2, hzed2, rfl⟩

/-- C8 witness: the round-trip at a concrete buffer state. -/
theorem C8_backup_next_roundtrip_witness :
    (Tree.backup { Tree.New [] none with
        buf := [none, none, none, some { ty := itemTitle, Text := "T" },
                some { ty := itemSectionAdornment, Text := "===" }, none, none, none, none] }).zed
      = some { ty := itemTitle, Text := "T" } ∧
    ((Tree.backup { Tree.New [] none with
        buf := [none, none, none, some { ty := itemTitle, Text := "T" },
                some { ty := itemSectionAdornment, Text := "===" }, none, none, none,
                none] }).next 1).1 = some { ty := itemSectionAdornment, Text := "===" } := by
  have h := C8_backup_next_roundtrip { Tree.New [] none with
      buf := [none, none, none, some { ty := itemTitle, Text := "T" },
              some { ty := itemSectionAdornment, Text := "===" }, none, none, none, none] }
    { ty := itemSectionAdornment, Text := "===" } (by decide)
  exact ⟨by rw [h.1]; decide, h.2.1⟩

/-- C10: on empty input (a lone EOF token) the parser stops right after
the first token, leaving the root node list, the flat message list and
the node arena empty, for any fuel and any inherited global state. -/
theorem C10_empty_input :
    ∀ (fuel : Nat) (g : Option Nat), 0 < fuel →
      ParseTokens [eofTok] g fuel =
        .ok () { buf := [none, none, none, none, some eofTok, none, none, none, none]
                 lex := [], arena := [], Nodes := [], Messages := []
                 nodeTarget := .root, secLevels := {}, sections := []
                 openList := none, indents := [], lastEnum := g } := by
  intro fuel g h
  match fuel, h with
  | Nat.succ f, _ => rfl

/-! ### Arena access lemmas and the `systemMessage` contract -/

theorem node_pushNode_self (t : Tree) (n : NodeData) :
    (t.pushNode n).1.node (t.pushNode n).2 = n := by
  simp [Tree.pushNode, Tree.node, List.getD_eq_getElem?_getD, List.getElem?_concat_length]

theorem node_pushNode_lt (t : Tree) (n : NodeData) (i : Nat) (h : i < t.arena.length) :
    (t.pushNode n).1.node i = t.node i := by
  simp [Tree.pushNode, Tree.node, List.getD_eq_getElem?_getD, List.getElem?_append_left h]

theorem node_pushNode_other (t : Tree) (n : NodeData) (i : Nat) (h : i ≠ t.arena.length) :
    (t.pushNode n).1.node i = t.node i := by
  rcases Nat.lt_or_ge i t.arena.length with hlt | hge
  · exact node_pushNode_lt t n i hlt
  · have hgt : t.arena.length < i := lt_of_le_of_ne hge (Ne.symm h)
    simp only [Tree.pushNode, Tree.node, List.getD_eq_getElem?_getD]
    rw [List.getElem?_eq_none (by simp; omega), List.getElem?_eq_none (by omega)]

theorem node_setNode_self (t : Tree) (i : Nat) (n : NodeData) (h : i < t.arena.length) :
    (t.setNode i n).node i = n := by
  simp [Tree.setNode, Tree.node, List.getD_eq_getElem?_getD, List.getElem?_set_self h]

theorem node_setNode_other (t : Tree) (i j : Nat) (n : NodeData) (h : i ≠ j) :
    (t.setNode i n).node j = t.node j := by
  simp [Tree.setNode, Tree.node, List.getD_eq_getElem?_getD, List.getElem?_set_ne h]

theorem node_appendChild_self (t : Tree) (i c : Nat) (h : i < t.arena.length) :
    (t.appendChild i c).node i = { t.node i with children := (t.node i).children ++ [c] } := by
  simp [Tree.appendChild, node_setNode_self, h]

theorem node_appendChild_other (t : Tree) (i j c : Nat) (h : i ≠ j) :
    (t.appendChild i c).node j = t.node j := by
  simp [Tree.appendChild, node_setNode_other, h]

/-- Invariant carried through the body of `systemMessage`: the flat
lists are untouched, the freshly allocated node `sId` is the
`SystemMessage` node for `err`, and no node's section-ness changed. -/
def smInv (t0 : Tree) (err : parserMessage) (sId : Nat) (t : Tree) : Prop :=
  t.Messages = t0.Messages ∧ t.Nodes = t0.Nodes ∧
  sId < t.arena.length ∧
  (t.node sId).kind = .NodeSystemMessage ∧ (t.node sId).msgType = some err ∧
  (∀ i, (t.node i).kind = .NodeSection ↔ (t0.node i).kind = .NodeSection)

theorem smInv_pushNode {t0 t : Tree} {err sId} (h : smInv t0 err sId t)
    (n : NodeData) (hn : n.kind ≠ .NodeSection) : smInv t0 err sId (t.pushNode n).1 := by
  obtain ⟨h1, h2, h3, h4, h5, h6⟩ := h
  refine ⟨h1, h2, ?_, ?_, ?_, ?_⟩
  · simp [Tree.pushNode]; omega
  · rw [node_pushNode_lt t n sId h3]; exact h4
  · rw [node_pushNode_lt t n sId h3]; exact h5
  · intro i
    rcases eq_or_ne i t.arena.length with heq | hne
    · subst heq
      have hfresh : (t.pushNode n).1.node t.arena.length = n := node_pushNode_self t n
      rw [hfresh]
      have hold : t.node t.arena.length = { kind := .NodeText } := by
        simp [Tree.node, List.getD_eq_default]
      have h0 := h6 t.arena.length
      rw [hold] at h0
      constructor
      · intro hk; exact absurd hk hn
      · intro hk
        exact absurd (h0.2 hk) (by simp)
    · rw [node_pushNode_other t n i hne]; exact h6 i

theorem smInv_appendChild {t0 t : Tree} {err sId} (h : smInv t0 err sId t)
    (c : Nat) : smInv t0 err sId (t.appendChild sId c) := by
  obtain ⟨h1, h2, h3, h4, h5, h6⟩ := h
  refine ⟨h1, h2, by simp [Tree.appendChild, Tree.setNode]; omega, ?_, ?_, ?_⟩
  · rw [node_appendChild_self t sId c h3]; exact h4
  · rw [node_appendChild_self t sId c h3]; exact h5
  · intro i
    rcases eq_or_ne sId i with heq | hne
    · subst heq
      rw [node_appendChild_self t sId c h3]
      exact h6 sId
    · rw [node_appendChild_other t sId i c hne]
      exact h6 i

theorem smInv_same {t0 t t' : Tree} {err sId} (h : smInv t0 err sId t)
    (ha : t'.arena = t.arena) (hn : t'.Nodes = t.Nodes) (hm : t'.Messages = t.Messages) :
    smInv t0 err sId t' := by
  obtain ⟨h1, h2, h3, h4, h5, h6⟩ := h
  have hnode : ∀ i, t'.node i = t.node i := by
    intro i
    simp [Tree.node, ha]
  exact ⟨hm.trans h1, hn.trans h2, by rw [ha]; exact h3,
    by rw [hnode]; exact h4, by rw [hnode]; exact h5,
    by intro i; rw [hnode]; exact h6 i⟩

theorem smInv_setLine {t0 t : Tree} {err sId} (h : smInv t0 err sId t) (l : Nat) :
    smInv t0 err sId (t.setLine sId l) := by
  obtain ⟨h1, h2, h3, h4, h5, h6⟩ := h
  refine ⟨h1, h2, by simp [Tree.setLine, Tree.setNode]; omega, ?_, ?_, ?_⟩
  · rw [Tree.setLine, node_setNode_self t sId _ h3]; exact h4
  · rw [Tree.setLine, node_setNode_self t sId _ h3]; exact h5
  · intro i
    rcases eq_or_ne sId i with heq | hne
    · subst heq
      rw [Tree.setLine, node_setNode_self t sId _ h3]
      exact h6 sId
    · rw [Tree.setLine, node_setNode_other t sId i _ hne]
      exact h6 i

theorem finishSM_spec {t0 t : Tree} {err sId} (h : smInv t0 err sId t)
    (lb : String) (n : Nat) :
    ∃ t2, Tree.finishSM t sId lb n = .ok sId t2 ∧
      t2.Messages = t0.Messages ++ [sId] ∧ t2.Nodes = t0.Nodes ∧
      (t2.node sId).kind = .NodeSystemMessage ∧ (t2.node sId).msgType = some err ∧
      (∀ i, (t2.node i).kind = .NodeSection ↔ (t0.node i).kind = .NodeSection) := by
  by_cases hn : n > 0
  · have h2 := smInv_appendChild
      (smInv_pushNode h { kind := .NodeLiteralBlock, text := lb, length := n } (by simp))
      (t.pushNode { kind := .NodeLiteralBlock, text := lb, length := n }).2
    set X := (t.pushNode { kind := .NodeLiteralBlock, text := lb, length := n }).1.appendChild
      sId (t.pushNode { kind := .NodeLiteralBlock, text := lb, length := n }).2 with hX
    obtain ⟨a1, a2, a3, a4, a5, a6⟩ := h2
    refine ⟨{ X with Messages := X.Messages ++ [sId] }, ?_, ?_, ?_, ?_, ?_, ?_⟩
    · simp only [Tree.finishSM, if_pos hn, hX]
    · show X.Messages ++ [sId] = t0.Messages ++ [sId]
      rw [a1]
    · exact a2
    · exact a4
    · exact a5
    · exact a6
  · obtain ⟨a1, a2, a3, a4, a5, a6⟩ := h
    refine ⟨{ t with Messages := t.Messages ++ [sId] }, ?_, ?_, ?_, ?_, ?_, ?_⟩
    · simp only [Tree.finishSM, if_neg hn]
    · show t.Messages ++ [sId] = t0.Messages ++ [sId]
      rw [a1]
    · exact a2
    · exact a4
    · exact a5
    · exact a6

theorem finishSM_inv {t0 t : Tree} {err : parserMessage} {sId sId2 : Nat} {t2 : Tree}
    (hin : smInv t0 err sId t) (lb : String) (n : Nat)
    (h : Tree.finishSM t sId lb n = .ok sId2 t2) :
    sId2 = sId ∧ t2.Messages = t0.Messages ++ [sId] ∧ t2.Nodes = t0.Nodes ∧
      (t2.node sId).kind = .NodeSystemMessage ∧ (t2.node sId).msgType = some err ∧
      (∀ i, (t2.node i).kind = .NodeSection ↔ (t0.node i).kind = .NodeSection) := by
  obtain ⟨t3, heq, hp⟩ := finishSM_spec hin lb n
  rw [heq] at h
  injection h with h1 h2
  exact ⟨h1.symm, h2 ▸ hp⟩

theorem finishSM_inv_ops {t0 tP S : Tree} {err : parserMessage} {sId sId2 : Nat} {t2 : Tree}
    (hInv : smInv t0 err sId tP) (l : Nat)
    (lb : String) (n : Nat)
    (h : Tree.finishSM S sId lb n = .ok sId2 t2)
    (hS : S.arena = (tP.setLine sId l).arena)
    (hSn : S.Nodes = (tP.setLine sId l).Nodes)
    (hSm : S.Messages = (tP.setLine sId l).Messages) :
    sId2 = sId ∧ t2.Messages = t0.Messages ++ [sId] ∧ t2.Nodes = t0.Nodes ∧
      (t2.node sId).kind = .NodeSystemMessage ∧ (t2.node sId).msgType = some err ∧
      (∀ i, (t2.node i).kind = .NodeSection ↔ (t0.node i).kind = .NodeSection) :=
  finishSM_inv (smInv_same (smInv_setLine hInv l) hS hSn hSm) lb n h

/-- Contract of `Tree.systemMessage`: on success it allocates one
`SystemMessage` node of the requested kind, appends it to the flat
`Messages` list, and leaves the root list untouched with no section
node created anywhere in the arena. -/
theorem systemMessage_spec (t : Tree) (err : parserMessage) (sId : Nat) (t2 : Tree) :
    t.systemMessage err = .ok sId t2 →
      t2.Messages = t.Messages ++ [sId] ∧ t2.Nodes = t.Nodes ∧
      (t2.node sId).kind = .NodeSystemMessage ∧ (t2.node sId).msgType = some err ∧
      (∀ i, (t2.node i).kind = .NodeSection ↔ (t.node i).kind = .NodeSection) := by
  intro h
  unfold Tree.systemMessage at h
  split at h
  · cases h
  · rename_i zedTok hzed
    have hInv0 : smInv t err t.arena.length
        (t.pushNode { kind := .NodeSystemMessage, msgType := some err, severity := some err.Level, line := zedTok.Line }).1 := by
      refine ⟨rfl, rfl, by simp [Tree.pushNode], ?_, ?_, ?_⟩
      · exact (congrArg NodeData.kind (node_pushNode_self t _)).trans rfl
      · exact (congrArg NodeData.msgType (node_pushNode_self t _)).trans rfl
      · intro i
        rcases eq_or_ne i t.arena.length with heq | hne
        · subst heq
          have hfresh : (t.pushNode { kind := .NodeSystemMessage, msgType := some err, severity := some err.Level, line := zedTok.Line }).1.node t.arena.length = { kind := .NodeSystemMessage, msgType := some err, severity := some err.Level, line := zedTok.Line } :=
            node_pushNode_self t _
          rw [hfresh]
          have hold : t.node t.arena.length = { kind := .NodeText } := by
            simp [Tree.node, List.getD_eq_default]
          rw [hold]
          simp
        · rw [node_pushNode_other t _ i hne]
    have hInvP := smInv_pushNode hInv0
      { kind := .NodeText, text := err.Message, length := goLen err.Message } (by simp)
    have hInv : smInv t err (Tree.smPreamble t err zedTok).2 (Tree.smPreamble t err zedTok).1 :=
      smInv_appendChild hInvP
        ((t.pushNode { kind := .NodeSystemMessage, msgType := some err, severity := some err.Level, line := zedTok.Line }).1.pushNode { kind := .NodeText, text := err.Message, length := goLen err.Message }).2
    dsimp only [] at h
    cases err <;>
      dsimp only [] at h <;>
      (repeat' first | split at h | split_ifs at h) <;>
      first
        | (obtain ⟨hE, hp⟩ := finishSM_inv_ops hInv _ _ _ h rfl rfl rfl
           subst hE
           exact hp)
        | cases h

theorem C10_empty_input_witness :
    ParseTokens [eofTok] none 1 =
      .ok () { buf := [none, none, none, none, some eofTok, none, none, none, none]
               lex := [], arena := [], Nodes := [], Messages := []
               nodeTarget := .root, secLevels := {}, sections := []
               openList := none, indents := [], lastEnum := none } :=
  C10_empty_input 1 none (by decide)

/-! ### C2 and C4: what actually happens to a mismatched section -/

/-- Token stream of the input "===\nTitle\n---\n": an overline whose
rune differs from the underline's. -/
def mismatchStream : List Item :=
  [ { ty := itemSectionAdornment, Text := "===", Length := 3, Line := 1 },
    { ty := itemTitle, Text := "Title", Length := 5, Line := 2 },
    { ty := itemSectionAdornment, Text := "---", Length := 3, Line := 3 },
    eofTok ]

/-- Final tree of the mismatch run. -/
def mismatchTree : Tree := (ParseTokens mismatchStream none 50).treeD (Tree.New [] none)

/-- C2 counterexample: on the mismatched input "===\nTitle\n---\n" the
run emits `severeOverlineUnderlineMismatch` but the final arena holds
no `Section` node at all — the section is dropped, not constructed with
the diagnostic attached — and the root list stays empty. -/
theorem C2_mismatch_drops_section_counterexample :
    flatTypes mismatchTree = [some .severeOverlineUnderlineMismatch] ∧
    mismatchTree.arena.map (fun n => n.kind) =
      [.NodeSystemMessage, .NodeText, .NodeLiteralBlock] ∧
    mismatchTree.Nodes = [] := by
  refine ⟨?_, ?_, ?_⟩ <;> rfl

/-- C2 (amended): when the overline text differs from the underline
text, `section` returns the `severeOverlineUnderlineMismatch` system
message instead of building a section: the message is registered in the
flat list, the root list is untouched, and no node anywhere in the
arena becomes a `Section` node. -/
theorem C2_mismatch_no_section (t : Tree) (ov un : Item) (title indent : Option Item)
    (sId : Nat) (t2 : Tree) (hne : ov.Text ≠ un.Text)
    (h : Tree.sectionTail t (some ov) title (some un) indent = .ok sId t2) :
    t2.Messages = t.Messages ++ [sId] ∧
    (t2.node sId).msgType = some .severeOverlineUnderlineMismatch ∧
    t2.Nodes = t.Nodes ∧
    (∀ i, (t2.node i).kind = .NodeSection ↔ (t.node i).kind = .NodeSection) := by
  unfold Tree.sectionTail at h
  dsimp only [] at h
  rw [if_pos hne] at h
  obtain ⟨h1, h2, h3, h4, h5⟩ := systemMessage_spec t _ sId t2 h
  exact ⟨h1, h4, h2, h5⟩

/-- Parser state used to exercise `sectionTail` directly: the buffer
holds the skeleton tokens of a section with the underline at the
current position. -/
def smState : Tree :=
  { Tree.New [] none with
      buf := [none, none,
              some { ty := itemTitle, Text := "Title", Length := 5, Line := 2 },
              some { ty := itemTitle, Text := "Title", Length := 5, Line := 2 },
              some { ty := itemSectionAdornment, Text := "---", Length := 3, Line := 3 },
              none, none, none, none] }

/-- C2 witness: the amended theorem applied at a concrete mismatched
overline/underline pair. -/
theorem C2_mismatch_no_section_witness :
    ({ ty := itemSectionAdornment, Text := "===", Length := 3, Line := 1 } : Item).Text ≠
      ({ ty := itemSectionAdornment, Text := "---", Length := 3, Line := 3 } : Item).Text ∧
    ((Tree.sectionTail smState
        (some { ty := itemSectionAdornment, Text := "===", Length := 3, Line := 1 }) none
        (some { ty := itemSectionAdornment, Text := "---", Length := 3, Line := 3 }) none).treeD
          (Tree.New [] none)).Messages = smState.Messages ++ [0] :=
  ⟨by decide,
   (C2_mismatch_no_section smState
      { ty := itemSectionAdornment, Text := "===", Length := 3, Line := 1 }
      { ty := itemSectionAdornment, Text := "---", Length := 3, Line := 3 } none none 0
      ((Tree.sectionTail smState
          (some { ty := itemSectionAdornment, Text := "===", Length := 3, Line := 1 }) none
          (some { ty := itemSectionAdornment, Text := "---", Length := 3, Line := 3 }) none).treeD
            (Tree.New [] none))
      (by decide) (by decide)).1⟩

/-- C4 counterexample: after the mismatch run the flat `Messages` list
registers one `SystemMessage` node, but the tree reachable from the
root list contains none (the diagnostic was never appended to any
parent), so the two counts differ. -/
theorem C4_flat_vs_tree_counterexample :
    mismatchTree.Messages.length = 1 ∧ treeSMCount mismatchTree = 0 := by
  refine ⟨?_, ?_⟩ <;> rfl

/-- C4 (amended): every diagnostic produced by `systemMessage` is
registered in the flat `Messages` list (as a `SystemMessage` node of
the requested kind); the root list is left unchanged, so nothing links
the new node into the tree. -/
theorem C4_flat_registration (t : Tree) (err : parserMessage) (sId : Nat) (t2 : Tree)
    (h : t.systemMessage err = .ok sId t2) :
    t2.Messages = t.Messages ++ [sId] ∧
    (t2.node sId).kind = .NodeSystemMessage ∧
    (t2.node sId).msgType = some err ∧
    t2.Nodes = t.Nodes := by
  obtain ⟨h1, h2, h3, h4, h5⟩ := systemMessage_spec t err sId t2 h
  exact ⟨h1, h3, h4, h2⟩

/-- C4 witness: the flat-registration contract applied to a concrete
`systemMessage` call. -/
theorem C4_flat_registration_witness :
    ((smState.systemMessage .severeOverlineUnderlineMismatch).treeD
        (Tree.New [] none)).Messages = smState.Messages ++ [0] :=
  (C4_flat_registration smState .severeOverlineUnderlineMismatch 0
    ((smState.systemMessage .severeOverlineUnderlineMismatch).treeD (Tree.New [] none))
    (by decide)).1

/-! ### C6: the no-overline underline warning

Only the `Length` fields of the two tokens drive the check, so the
texts are fixed and the lengths quantified. -/

/-- Title token of length `tl`. -/
def C6ttl (tl : Nat) : Item := { ty := itemTitle, Text := "Title", Length := tl, Line := 1 }

/-- Underline adornment token of length `ul`. -/
def C6sa (ul : Nat) : Item := { ty := itemSectionAdornment, Text := "===", Length := ul, Line := 2 }

/-- Parser state at the `section` call for `Title\n===` input: the
title sits one slot back, the adornment is current, EOF remains in the
lexer. -/
def C6state (tl ul : Nat) : Tree :=
  { Tree.New [] none with
      buf := [none, none, none, some (C6ttl tl), some (C6sa ul), none, none, none, none],
      lex := [eofTok] }

/-- `C6state` after `section`'s forward peek pulled the EOF token. -/
def C6mid (tl ul : Nat) : Tree :=
  { Tree.New [] none with
      buf := [none, none, none, some (C6ttl tl), some (C6sa ul), some eofTok, none, none, none],
      lex := [] }

/-- Whether a message of kind `m` is registered in the flat list. -/
def hasMsg (t : Tree) (m : parserMessage) : Bool :=
  t.Messages.any fun id => (t.node id).msgType == some m

theorem C6_section_eq (tl ul : Nat) :
    Tree.section_ (C6state tl ul) (C6sa ul) 9 =
      if ul < 3 ∧ ul ≠ tl then
        Tree.systemMessage (C6mid tl ul) .infoUnderlineTooShortForTitle
      else Tree.sectionTail (C6mid tl ul) none (some (C6ttl tl)) (some (C6sa ul)) none := by
  rfl

/-- State after the section node of the `Title\n===` skeleton is built
and registered at level 1. -/
def C6sec (tl ul : Nat) : Tree :=
  { buf := [none, none, none, some (C6ttl tl), some (C6sa ul), some eofTok, none, none, none],
    lex := [],
    arena := [ { kind := .NodeSection,
                 title := some { text := "Title", indentLength := 0, length := tl, line := 1, startPosition := 0 },
                 overLine := none,
                 underLine := some { rune := '=', length := ul, line := 2, startPosition := 0 },
                 level := 1 } ],
    Nodes := [], Messages := [], nodeTarget := .root,
    secLevels := { levels := [('=', false)], sections := [(1, 0)], lastSectionNode := some (1, 0) },
    sections := [], openList := none, indents := [], lastEnum := none }

theorem C6_tail_eq (tl ul : Nat) :
    Tree.sectionTail (C6mid tl ul) none (some (C6ttl tl)) (some (C6sa ul)) none =
      if tl ≠ ul then
        match (C6sec tl ul).systemMessage .warningShortUnderline with
        | .ok smId t => .ok 0 (t.appendChild 0 smId)
        | .panic => .panic
        | .fuelOut => .fuelOut
      else .ok 0 (C6sec tl ul) := by
  rfl

/-- C6 (amended): for a section without overline whose previous token
is a title, `infoUnderlineTooShortForTitle` is emitted exactly when the
underline length is below 3 AND DIFFERS from the title length — not
only when it is shorter than the title.  (When the guard fails, the
section is built; a title/underline length difference then yields the
separate `warningShortUnderline`.) -/
theorem C6_underline_warning_iff (tl ul : Nat) :
    (hasMsg ((Tree.section_ (C6state tl ul) (C6sa ul) 9).treeD (Tree.New [] none))
        .infoUnderlineTooShortForTitle = true) ↔ (ul < 3 ∧ ul ≠ tl) := by
  rw [C6_section_eq]
  by_cases h1 : ul < 3 ∧ ul ≠ tl
  · rw [if_pos h1]
    exact ⟨fun _ => h1, fun _ => rfl⟩
  · rw [if_neg h1, C6_tail_eq]
    by_cases h2 : tl ≠ ul
    · rw [if_pos h2]
      exact ⟨fun hx => Bool.noConfusion hx, fun hcond => absurd hcond h1⟩
    · rw [if_neg h2]
      exact ⟨fun hx => Bool.noConfusion hx, fun hcond => absurd hcond h1⟩

/-- C6 counterexample: input `A\n==` — underline (length 2) is NOT
shorter than the title (length 1), so the claimed condition
"underline < 3 and < title length" is false, yet the full run emits
`infoUnderlineTooShortForTitle`. -/
theorem C6_underline_warning_counterexample :
    ¬(2 < 1) ∧
    flatTypes ((ParseTokens
        [ { ty := itemTitle, Text := "A", Length := 1, Line := 1 },
          { ty := itemSectionAdornment, Text := "==", Length := 2, Line := 2 },
          eofTok ] none 50).treeD (Tree.New [] none)) =
      [some .infoUnderlineTooShortForTitle] :=
  ⟨by decide, rfl⟩

/-! ### C9: the parse result does not depend on the inherited global -/

/-- Overwrite the modelled package global `lastEnum`. -/
def Tree.setG (t : Tree) (x : Option Nat) : Tree := { t with lastEnum := x }

/-- Overwrite the global in the final state of a computation. -/
def Out.gmap {α : Type} (o : Out α) (x : Option Nat) : Out α :=
  match o with
  | .ok a t => .ok a (t.setG x)
  | .panic => .panic
  | .fuelOut => .fuelOut

@[simp] theorem zed_setG (t : Tree) (x : Option Nat) : (t.setG x).zed = t.zed := rfl
@[simp] theorem buf_setG (t : Tree) (x : Option Nat) : (t.setG x).buf = t.buf := rfl
@[simp] theorem lex_setG (t : Tree) (x : Option Nat) : (t.setG x).lex = t.lex := rfl
@[simp] theorem arena_setG (t : Tree) (x : Option Nat) : (t.setG x).arena = t.arena := rfl
@[simp] theorem Nodes_setG (t : Tree) (x : Option Nat) : (t.setG x).Nodes = t.Nodes := rfl
@[simp] theorem Messages_setG (t : Tree) (x : Option Nat) : (t.setG x).Messages = t.Messages := rfl
@[simp] theorem nodeTarget_setG (t : Tree) (x : Option Nat) : (t.setG x).nodeTarget = t.nodeTarget := rfl
@[simp] theorem indents_setG (t : Tree) (x : Option Nat) : (t.setG x).indents = t.indents := rfl
@[simp] theorem secLevels_setG (t : Tree) (x : Option Nat) : (t.setG x).secLevels = t.secLevels := rfl
@[simp] theorem sections_setG (t : Tree) (x : Option Nat) : (t.setG x).sections = t.sections := rfl
@[simp] theorem openList_setG (t : Tree) (x : Option Nat) : (t.setG x).openList = t.openList := rfl
@[simp] theorem lastEnum_setG (t : Tree) (x : Option Nat) : (t.setG x).lastEnum = x := rfl
@[simp] theorem pushNode_setG (t : Tree) (x : Option Nat) (n : NodeData) :
    (t.setG x).pushNode n = ((t.pushNode n).1.setG x, (t.pushNode n).2) := rfl
@[simp] theorem node_setG (t : Tree) (x : Option Nat) (i : Nat) :
    (t.setG x).node i = t.node i := rfl
@[simp] theorem setNode_setG (t : Tree) (x : Option Nat) (i : Nat) (n : NodeData) :
    (t.setG x).setNode i n = (t.setNode i n).setG x := rfl
@[simp] theorem appendChild_setG (t : Tree) (x : Option Nat) (i c : Nat) :
    (t.setG x).appendChild i c = (t.appendChild i c).setG x := rfl
@[simp] theorem backup_setG (t : Tree) (x : Option Nat) :
    (t.setG x).backup = t.backup.setG x := rfl
@[simp] theorem peekBack_setG (t : Tree) (x : Option Nat) (p : Nat) :
    (t.setG x).peekBack p = t.peekBack p := rfl
@[simp] theorem clearTokens_setG (t : Tree) (x : Option Nat) (b e : Nat) :
    (t.setG x).clearTokens b e = (t.clearTokens b e).setG x := rfl
@[simp] theorem setLine_setG (t : Tree) (x : Option Nat) (i l : Nat) :
    (t.setG x).setLine i l = (t.setLine i l).setG x := rfl
@[simp] theorem withSecLevels_setG (t : Tree) (x : Option Nat) (r : SecRegistry) :
    (t.setG x).withSecLevels r = (t.withSecLevels r).setG x := rfl
@[simp] theorem withTarget_setG (t : Tree) (x : Option Nat) (tg : Target) :
    (t.setG x).withTarget tg = (t.withTarget tg).setG x := rfl
@[simp] theorem withOpenList_setG (t : Tree) (x : Option Nat) (v : Option Nat) :
    (t.setG x).withOpenList v = (t.withOpenList v).setG x := rfl
@[simp] theorem withIndents_setG (t : Tree) (x : Option Nat) (v : List (Nat × Nat)) :
    (t.setG x).withIndents v = (t.withIndents v).setG x := rfl

@[simp] theorem targetAppend_setG (t : Tree) (x : Option Nat) (c : Nat) :
    (t.setG x).targetAppend c = (t.targetAppend c).setG x := by
  unfold Tree.targetAppend
  simp only [nodeTarget_setG]
  split <;> rfl

@[simp] theorem shiftPull_setG (t : Tree) (x : Option Nat) :
    (t.setG x).shiftPull = t.shiftPull.setG x := by
  unfold Tree.shiftPull
  simp only [buf_setG, lex_setG, zed_setG, arena_setG, Nodes_setG, Messages_setG,
    nodeTarget_setG, secLevels_setG, sections_setG, openList_setG, indents_setG, lastEnum_setG,
    Tree.zed]
  split <;> [skip; rfl]
  split <;> rfl

@[simp] theorem next_setG (t : Tree) (x : Option Nat) : ∀ (n : Nat),
    (t.setG x).next n = ((t.next n).1, (t.next n).2.setG x)
  | 0 => rfl
  | n + 1 => by
      unfold Tree.next
      simp only [shiftPull_setG]
      split
      · rw [next_setG t.shiftPull x n]
      · rfl

@[simp] theorem peekStep_setG (t : Tree) (x : Option Nat) (i : Nat) :
    (t.setG x).peekStep i = (t.peekStep i).gmap x := by
  unfold Tree.peekStep
  simp only [buf_setG, lex_setG]
  split
  · rfl
  · split
    · rfl
    · split <;> rfl

@[simp] theorem peekGo_setG (x : Option Nat) : ∀ (rem : Nat) (t : Tree) (i : Nat) (acc : Option Item),
    Tree.peekGo (t.setG x) i acc rem = (Tree.peekGo t i acc rem).gmap x
  | 0, t, i, acc => rfl
  | rem + 1, t, i, acc => by
      unfold Tree.peekGo
      rw [peekStep_setG]
      rcases h : t.peekStep i with ⟨nItem, t1⟩ | _ | _
      · simp only [Out.gmap]
        exact peekGo_setG x rem t1 (i + 1) nItem
      · rfl
      · rfl

@[simp] theorem peek_setG (t : Tree) (x : Option Nat) (pos : Nat) :
    (t.setG x).peek pos = (t.peek pos).gmap x := by
  unfold Tree.peek
  rw [zed_setG]
  exact peekGo_setG x pos t 1 t.zed

@[simp] theorem peekSkipGo_setG (x : Option Nat) (el : ItemElement) :
    ∀ (f : Nat) (t : Tree) (count : Nat),
    Tree.peekSkipGo (t.setG x) el count f = (Tree.peekSkipGo t el count f).gmap x
  | 0, t, count => rfl
  | f + 1, t, count => by
      unfold Tree.peekSkipGo
      rw [peek_setG]
      rcases h : t.peek count with ⟨it, t1⟩ | _ | _
      · rcases it with _ | it
        · rfl
        · simp only [Out.gmap]
          split
          · exact peekSkipGo_setG x el f t1 (count + 1)
          · rfl
      · rfl
      · rfl

@[simp] theorem peekSkip_setG (t : Tree) (x : Option Nat) (el : ItemElement) :
    (t.setG x).peekSkip el = (t.peekSkip el).gmap x :=
  peekSkipGo_setG x el 9 t 1

@[simp] theorem peekBackTo_go_setG (t : Tree) (x : Option Nat) (el : ItemElement) :
    ∀ i, Tree.peekBackTo.go el (t.setG x) i = Tree.peekBackTo.go el t i
  | 0 => rfl
  | i + 1 => by
      unfold Tree.peekBackTo.go
      rw [buf_setG, peekBackTo_go_setG t x el i]

@[simp] theorem peekBackTo_setG (t : Tree) (x : Option Nat) (el : ItemElement) :
    (t.setG x).peekBackTo el = t.peekBackTo el :=
  peekBackTo_go_setG t x el 3

@[simp] theorem finishSM_setG (t : Tree) (x : Option Nat) (sId : Nat) (lb : String) (n : Nat) :
    (t.setG x).finishSM sId lb n = (t.finishSM sId lb n).gmap x := by
  unfold Tree.finishSM
  simp only [pushNode_setG, appendChild_setG, Messages_setG]
  split <;> rfl

@[simp] theorem smPreamble_setG (t : Tree) (x : Option Nat) (err : parserMessage) (z : Item) :
    (t.setG x).smPreamble err z = ((t.smPreamble err z).1.setG x, (t.smPreamble err z).2) := rfl

@[simp] theorem systemMessage_setG (t : Tree) (x : Option Nat) (err : parserMessage) :
    (t.setG x).systemMessage err = (t.systemMessage err).gmap x := by
  unfold Tree.systemMessage
  simp only [zed_setG]
  rcases hz : t.zed with _ | z
  · rfl
  · simp only [smPreamble_setG, buf_setG, lex_setG, arena_setG, Nodes_setG, Messages_setG,
      nodeTarget_setG, secLevels_setG, sections_setG, openList_setG, indents_setG, lastEnum_setG,
      peekBackTo_setG, peekBack_setG, backup_setG, clearTokens_setG, setLine_setG, finishSM_setG]
    cases err <;>
      dsimp only [] <;>
      (repeat' split) <;>
      rfl

theorem andThen_gmap {α β : Type} (o : Out α) (x : Option Nat) (k : α → Tree → Out β) :
    (o.gmap x).andThen k = o.andThen (fun a s => k a (s.setG x)) := by
  cases o <;> rfl

theorem andThen_gmap_out {α β : Type} (o : Out α) (x : Option Nat) (k : α → Tree → Out β) :
    (o.andThen k).gmap x = o.andThen (fun a s => (k a s).gmap x) := by
  cases o <;> rfl

theorem andThen_congr {α β : Type} (o : Out α) (k1 k2 : α → Tree → Out β)
    (h : ∀ a s, k1 a s = k2 a s) : o.andThen k1 = o.andThen k2 := by
  cases o <;> simp only [Out.andThen]
  exact h _ _


@[simp] theorem titleLoop_setG (x : Option Nat) :
    ∀ (f : Nat) (t : Tree) (title indent : Option Item),
    Tree.titleLoop (t.setG x) title indent f = (Tree.titleLoop t title indent f).gmap x
  | 0, t, ti, ind => rfl
  | f + 1, t, ti, ind => by
      unfold Tree.titleLoop
      rw [zed_setG]
      rcases hz : t.zed with _ | tok
      · rfl
      · dsimp only []
        (repeat' split) <;>
          first
            | rfl
            | (simp only [next_setG]
               exact titleLoop_setG x f _ _ _)
            | exact titleLoop_setG x f _ _ _

@[simp] theorem sectionLengths_setG (t : Tree) (x : Option Nat) (secId : Nat)
    (overAdorn : Option Item) (ttl un : Item) (indent : Option Item) :
    Tree.sectionTail.sectionLengths (t.setG x) secId overAdorn ttl un indent =
      (Tree.sectionTail.sectionLengths t secId overAdorn ttl un indent).gmap x := by
  unfold Tree.sectionTail.sectionLengths
  simp only [systemMessage_setG, andThen_gmap]
  (repeat' split) <;>
    first
      | rfl
      | (rw [andThen_gmap_out]
         exact andThen_congr _ _ _ fun a s => rfl)

@[simp] theorem sectionBuild_setG (t : Tree) (x : Option Nat)
    (overAdorn title underAdorn indent : Option Item) :
    Tree.sectionTail.sectionBuild (t.setG x) overAdorn title underAdorn indent =
      (Tree.sectionTail.sectionBuild t overAdorn title underAdorn indent).gmap x := by
  unfold Tree.sectionTail.sectionBuild
  simp only [pushNode_setG, secLevels_setG, withSecLevels_setG, node_setG, setNode_setG,
    withTarget_setG, systemMessage_setG, sectionLengths_setG]
  (repeat' split) <;> rfl

@[simp] theorem sectionTail_setG (t : Tree) (x : Option Nat)
    (overAdorn title underAdorn indent : Option Item) :
    Tree.sectionTail (t.setG x) overAdorn title underAdorn indent =
      (Tree.sectionTail t overAdorn title underAdorn indent).gmap x := by
  unfold Tree.sectionTail
  (repeat' split) <;>
    first
      | rfl
      | exact systemMessage_setG _ x _
      | exact sectionBuild_setG _ x _ _ _ _

@[simp] theorem section_setG (t : Tree) (x : Option Nat) (i : Item) (fuel : Nat) :
    Tree.section_ (t.setG x) i fuel = (Tree.section_ t i fuel).gmap x := by
  unfold Tree.section_
  simp only [peekBack_setG, peekSkip_setG, andThen_gmap]
  rw [andThen_gmap_out]
  refine andThen_congr _ _ _ fun pFor s => ?_
  simp only [zed_setG]
  rcases hz : s.zed with _ | z
  · rfl
  · dsimp only []
    simp only [peekBack_setG, next_setG, systemMessage_setG, backup_setG, peek_setG,
      titleLoop_setG, andThen_gmap, sectionTail_setG]
    (repeat' split) <;>
      first
        | rfl
        | (rw [andThen_gmap_out]
           done)
        | (rw [andThen_gmap_out]
           refine andThen_congr _ _ _ fun a s2 => ?_
           first
             | rfl
             | ((repeat' split) <;> rfl))


@[simp] theorem inlineSimple_setG (t : Tree) (x : Option Nat) (k : NodeKind) :
    (t.setG x).inlineSimple k = (t.inlineSimple k).gmap x := by
  unfold Tree.inlineSimple
  simp only [next_setG, zed_setG, pushNode_setG, targetAppend_setG]
  split <;> rfl

@[simp] theorem inlineInterpretedText_setG (t : Tree) (x : Option Nat) :
    (t.setG x).inlineInterpretedText = t.inlineInterpretedText.gmap x := by
  unfold Tree.inlineInterpretedText
  simp only [next_setG, zed_setG, pushNode_setG, targetAppend_setG, peek_setG, andThen_gmap]
  split
  · rfl
  · rw [andThen_gmap_out]
    refine andThen_congr _ _ _ fun a s => ?_
    simp only [next_setG, zed_setG, pushNode_setG, appendChild_setG]
    (repeat' split) <;> rfl

@[simp] theorem blockquote_setG (t : Tree) (x : Option Nat) (i : Item) :
    (t.setG x).blockquote i = (t.blockquote i).setG x := rfl

@[simp] theorem enumList_setG (t : Tree) (x : Option Nat) (i : Item) :
    (t.setG x).enumList i = t.enumList i := rfl

@[simp] theorem paraExit_setG (t : Tree) (x : Option Nat) (npId : Nat) :
    (t.setG x).paraExit npId = (t.paraExit npId).gmap x := by
  unfold Tree.paraExit
  simp only [indents_setG, withTarget_setG]
  (repeat' split) <;> rfl

@[simp] theorem commentLoop_setG (x : Option Nat) : ∀ (f : Nat) (t : Tree) (acc : String),
    commentLoop (t.setG x) acc f = (commentLoop t acc f).gmap x
  | 0, t, acc => rfl
  | f + 1, t, acc => by
      unfold commentLoop
      rw [zed_setG]
      rcases hz : t.zed with _ | z
      · rfl
      · dsimp only []
        simp only [peek_setG, andThen_gmap]
        rw [andThen_gmap_out]
        refine andThen_congr _ _ _ fun a s => ?_
        (repeat' split) <;>
          first
            | rfl
            | (rw [andThen_gmap_out]
               refine andThen_congr _ _ _ fun a2 s2 => ?_
               (repeat' split) <;>
                 first
                   | rfl
                   | (simp only [next_setG]
                      exact commentLoop_setG x f _ _))

@[simp] theorem commentTail_setG (t : Tree) (x : Option Nat) (nPara : Item) :
    Tree.comment.commentTail (t.setG x) nPara = (Tree.comment.commentTail t nPara).gmap x := by
  unfold Tree.comment.commentTail
  simp only [peek_setG, andThen_gmap]
  rw [andThen_gmap_out]
  refine andThen_congr _ _ _ fun a s => ?_
  simp only [pushNode_setG, targetAppend_setG, systemMessage_setG, andThen_gmap]
  (repeat' split) <;>
    first
      | rfl
      | (rw [andThen_gmap_out]
         exact andThen_congr _ _ _ fun a2 s2 => rfl)

@[simp] theorem commentBody_setG (t : Tree) (x : Option Nat) (i : Item) (fuel : Nat) :
    Tree.comment.commentBody (t.setG x) i fuel = (Tree.comment.commentBody t i fuel).gmap x := by
  unfold Tree.comment.commentBody
  simp only [peek_setG, andThen_gmap]
  rw [andThen_gmap_out]
  refine andThen_congr _ _ _ fun a s => ?_
  (repeat' split) <;>
    first
      | rfl
      | (simp only [next_setG, peek_setG, andThen_gmap]
         rw [andThen_gmap_out]
         refine andThen_congr _ _ _ fun a2 s2 => ?_
         (repeat' split) <;>
           first
             | rfl
             | exact commentTail_setG _ x _
             | (rw [andThen_gmap_out]
                refine andThen_congr _ _ _ fun a3 s3 => ?_
                (repeat' split) <;>
                  first
                    | rfl
                    | exact commentTail_setG _ x _
                    | (simp only [next_setG, commentLoop_setG, andThen_gmap]
                       rw [andThen_gmap_out]
                       refine andThen_congr _ _ _ fun a4 s4 => ?_
                       simp only [pushNode_setG, targetAppend_setG]
                       rfl)))

@[simp] theorem comment_setG (t : Tree) (x : Option Nat) (i : Item) (fuel : Nat) :
    (t.setG x).comment i fuel = (t.comment i fuel).gmap x := by
  unfold Tree.comment
  simp only [peek_setG, andThen_gmap]
  rw [andThen_gmap_out]
  refine andThen_congr _ _ _ fun a s => ?_
  (repeat' split) <;>
    first
      | rfl
      | exact commentBody_setG _ x _ _
      | (simp only [pushNode_setG, targetAppend_setG]
         rfl)
      | (simp only [pushNode_setG, targetAppend_setG, peek_setG, andThen_gmap]
         rw [andThen_gmap_out]
         refine andThen_congr _ _ _ fun a2 s2 => ?_
         (repeat' split) <;>
           first
             | rfl
             | exact commentBody_setG _ x _ _
             | (simp only [pushNode_setG, targetAppend_setG, systemMessage_setG, andThen_gmap]
                rw [andThen_gmap_out]
                exact andThen_congr _ _ _ fun a3 s3 => rfl))


@[simp] theorem paraLoop_setG (x : Option Nat) : ∀ (f : Nat) (t : Tree) (npId ntId : Nat),
    paraLoop (t.setG x) npId ntId f = (paraLoop t npId ntId f).gmap x
  | 0, t, npId, ntId => rfl
  | f + 1, t, npId, ntId => by
      unfold paraLoop
      simp only [next_setG, peekBack_setG, node_setG]
      (repeat' split) <;>
        first
          | rfl
          | exact paraExit_setG _ x _
          | exact paraLoop_setG x f _ _ _
          | (simp only [setNode_setG, node_setG]
             exact paraLoop_setG x f _ _ _)
          | (simp only [pushNode_setG, targetAppend_setG]
             exact paraLoop_setG x f _ _ _)
          | (simp only [backup_setG]
             exact paraExit_setG _ x _)
          | (simp only [inlineSimple_setG, inlineInterpretedText_setG, comment_setG, andThen_gmap]
             rw [andThen_gmap_out]
             refine andThen_congr _ _ _ fun a2 s2 => ?_
             exact paraLoop_setG x f _ _ _)

@[simp] theorem paragraph_setG (t : Tree) (x : Option Nat) (i : Item) (fuel : Nat) :
    (t.setG x).paragraph i fuel = (t.paragraph i fuel).gmap x := by
  unfold Tree.paragraph
  simp only [pushNode_setG, targetAppend_setG, withTarget_setG]
  exact paraLoop_setG x fuel _ _ _

/-- Observable outcome of a run: the global is erased from the final
state, everything else kept. -/
def Out.observable {α : Type} (o : Out α) : Out α := o.gmap none

@[simp] theorem observable_gmap {α : Type} (o : Out α) (x : Option Nat) :
    (o.gmap x).observable = o.observable := by
  cases o <;> rfl

theorem andThen_congrObs {α β : Type} (o : Out α) (k1 k2 : α → Tree → Out β)
    (h : ∀ a s, (k1 a s).observable = (k2 a s).observable) :
    (o.andThen k1).observable = (o.andThen k2).observable := by
  cases o <;> simp only [Out.andThen]
  exact h _ _

theorem setG_ext {t1 t2 : Tree} (h : t1.setG none = t2.setG none) :
    t1 = t2.setG t1.lastEnum := by
  cases t1
  cases t2
  simp only [Tree.setG, Tree.mk.injEq] at h ⊢
  exact ⟨h.1, h.2.1, h.2.2.1, h.2.2.2.1, h.2.2.2.2.1, h.2.2.2.2.2.1, h.2.2.2.2.2.2.1,
    h.2.2.2.2.2.2.2.1, h.2.2.2.2.2.2.2.2.1, h.2.2.2.2.2.2.2.2.2.1, trivial⟩

theorem andThen_obs {α β : Type} (o1 o2 : Out α) (k1 k2 : α → Tree → Out β)
    (ho : o1.observable = o2.observable)
    (hk : ∀ (a : α) (s : Tree) (y : Option Nat),
      (k1 a (s.setG y)).observable = (k2 a s).observable) :
    (o1.andThen k1).observable = (o2.andThen k2).observable := by
  cases o1 with
  | ok a1 t1 =>
      cases o2 with
      | ok a2 t2 =>
          simp only [Out.observable, Out.gmap, Out.ok.injEq] at ho
          obtain ⟨ha, ht⟩ := ho
          subst ha
          have h1 : t1 = t2.setG t1.lastEnum := setG_ext ht
          simp only [Out.andThen]
          rw [h1]
          exact hk a1 t2 t1.lastEnum
      | panic => cases ho
      | fuelOut => cases ho
  | panic =>
      cases o2 with
      | ok a2 t2 => cases ho
      | panic => rfl
      | fuelOut => cases ho
  | fuelOut =>
      cases o2 with
      | ok a2 t2 => cases ho
      | panic => cases ho
      | fuelOut => rfl

theorem subParse_g (t : Tree) (x : Option Nat) (tok : Item) (f : Nat) :
    (subParse (t.setG x) tok f).observable = (subParse t tok f).observable := by
  unfold subParse
  (repeat' split) <;>
    first
      | rfl
      | (simp only [paragraph_setG, inlineSimple_setG, inlineInterpretedText_setG,
          comment_setG, blockquote_setG, enumList_setG, andThen_gmap]
         first
           | rfl
           | (refine andThen_congrObs _ _ _ fun a s => ?_
              rfl))


theorem dtLoop_g (x : Option Nat) : ∀ (f : Nat) (t : Tree) (dlId firstDefId : Nat),
    (dtLoop (t.setG x) dlId firstDefId f).observable = (dtLoop t dlId firstDefId f).observable
  | 0, _, _, _ => rfl
  | f + 1, t, dlId, firstDefId => by
      unfold dtLoop
      simp only [next_setG, peekBack_setG]
      (repeat' split) <;>
        first
          | rfl
          | exact dtLoop_g x f _ _ _
          | (simp only [withTarget_setG]
             exact andThen_obs _ _ _ _ (subParse_g _ x _ _) fun a s y => dtLoop_g y f s _ _)
          | exact andThen_obs _ _ _ _ (subParse_g _ x _ _) fun a s y => dtLoop_g y f s _ _
          | (simp only [pushNode_setG, appendChild_setG, targetAppend_setG, withTarget_setG]
             exact dtLoop_g x f _ _ _)
          | (simp only [peek_setG, andThen_gmap]
             refine andThen_congrObs _ _ _ fun a s => ?_
             simp only [pushNode_setG, withTarget_setG, targetAppend_setG]
             exact dtLoop_g x f _ _ _)

theorem definitionTerm_g (x : Option Nat) (t : Tree) (i : Item) (fuel : Nat) :
    ((t.setG x).definitionTerm i fuel).observable = (t.definitionTerm i fuel).observable := by
  unfold Tree.definitionTerm
  simp only [pushNode_setG, targetAppend_setG, withTarget_setG, next_setG, peek_setG,
    andThen_gmap]
  refine andThen_congrObs _ _ _ fun a s => ?_
  exact dtLoop_g x fuel _ _ _

theorem blLoop_g (x : Option Nat) : ∀ (f : Nat) (t : Tree),
    (blLoop (t.setG x) f).observable = (blLoop t f).observable
  | 0, _ => rfl
  | f + 1, t => by
      unfold blLoop
      simp only [next_setG, indents_setG, node_setG, peekBack_setG]
      (repeat' split) <;>
        first
          | rfl
          | exact blLoop_g x f _
          | exact andThen_obs _ _ _ _ (subParse_g _ x _ _) fun a s y => blLoop_g y f s

theorem bulletList_g (x : Option Nat) (t : Tree) (i : Item) (fuel : Nat) :
    ((t.setG x).bulletList i fuel).observable = (t.bulletList i fuel).observable := by
  unfold Tree.bulletList
  simp only [pushNode_setG, withOpenList_setG, targetAppend_setG, withTarget_setG, next_setG,
    indents_setG, withIndents_setG]
  exact andThen_obs _ _ _ _ (blLoop_g x fuel _) fun a s y => by
    simp only [indents_setG, withIndents_setG]
    rfl

theorem parseLoop_g (x : Option Nat) : ∀ (f : Nat) (t : Tree),
    (parseLoop (t.setG x) f).observable = (parseLoop t f).observable
  | 0, _ => rfl
  | f + 1, t => by
      unfold parseLoop
      simp only [next_setG]
      (repeat' split) <;>
        first
          | rfl
          | exact parseLoop_g x f _
          | (simp only [paragraph_setG, inlineSimple_setG, inlineInterpretedText_setG,
              comment_setG, section_setG, andThen_gmap]
             refine andThen_congrObs _ _ _ fun a s => ?_
             exact parseLoop_g x f s)
          | (simp only [pushNode_setG]
             exact parseLoop_g x f _)
          | (simp only [blockquote_setG]
             exact parseLoop_g x f _)
          | exact andThen_obs _ _ _ _ (definitionTerm_g x _ _ _) fun a s y => parseLoop_g y f s
          | exact andThen_obs _ _ _ _ (bulletList_g x _ _ _) fun a s y => parseLoop_g y f s

theorem ParseTokens_g (lexed : List Item) (g : Option Nat) (fuel : Nat) :
    (ParseTokens lexed g fuel).observable = (ParseTokens lexed none fuel).observable :=
  parseLoop_g g fuel (Tree.New lexed none)

/-- C9: parsing is deterministic across parser instances.  The only
state shared between instances is the package-level `lastEnum` global
(modelled as the `g` argument of `ParseTokens` / the `lastEnum` field),
and it is written but never read, so the observable outcome of a run —
final state up to the global, hence in particular the node arena, the
root list and the flat message list — does not depend on what an
earlier parse left in it: two runs over the same token stream with any
two inherited globals agree. -/
theorem C9_two_run_determinism (lexed : List Item) (g1 g2 : Option Nat) (fuel : Nat) :
    (ParseTokens lexed g1 fuel).observable = (ParseTokens lexed g2 fuel).observable :=
  (ParseTokens_g lexed g1 fuel).trans (ParseTokens_g lexed g2 fuel).symm

/-! ### C5: the section title loop spins on a missing underline

The `loop` of `parseSectionTitle` switches on the current token kind
with cases only for `Title`, `Space` and `SectionAdornment` and no
default: any other kind (here, EOF after the malformed fragment
`===\nTitle`) matches no case and the loop repeats without consuming,
so `Parse` never returns.  In the fuel-indexed embedding divergence is
`fuelOut` for every fuel. -/

/-- Overline token of `===\nTitle`. -/
def C5sa : Item := { ty := itemSectionAdornment, Text := "===", Length := 3, Line := 1 }

/-- Title token of `===\nTitle`. -/
def C5ttl : Item := { ty := itemTitle, Text := "Title", Length := 5, Line := 2 }

/-- Token stream of the malformed fragment `===\nTitle`: an overline
and a title with no underline before EOF. -/
def C5stream : List Item := [C5sa, C5ttl, eofTok]

/-- Parser state at entry of the title loop for `C5stream`. -/
def C5enter (g : Option Nat) : Tree :=
  { buf := [none, none, none, some C5sa, some C5ttl, none, none, none, none]
    lex := [eofTok], arena := [], Nodes := [], Messages := []
    nodeTarget := .root, secLevels := {}, sections := []
    openList := none, indents := [], lastEnum := g }

/-- State after the title loop consumed the title: EOF is current and
no switch case matches it. -/
def C5spin (g : Option Nat) : Tree :=
  { buf := [none, none, some C5sa, some C5ttl, some eofTok, none, none, none, none]
    lex := [], arena := [], Nodes := [], Messages := []
    nodeTarget := .root, secLevels := {}, sections := []
    openList := none, indents := [], lastEnum := g }

theorem C5_titleLoop_spin (g : Option Nat) : ∀ (f : Nat) (ti ind : Option Item),
    Tree.titleLoop (C5spin g) ti ind f = .fuelOut
  | 0, _, _ => rfl
  | f + 1, ti, ind => C5_titleLoop_spin g f ti ind

theorem C5_titleLoop_enter (g : Option Nat) : ∀ (f : Nat),
    Tree.titleLoop (C5enter g) none none f = .fuelOut
  | 0 => rfl
  | f + 1 => C5_titleLoop_spin g f (some C5ttl) none

/-- C5: `Parse` does NOT terminate on every input: on the token stream
of the malformed section fragment `===\nTitle` (overline and title with
no underline), the title sub-loop of `section` reaches the EOF token,
which matches none of its switch cases, and spins; the run exhausts any
amount of fuel, regardless of the inherited global. -/
theorem C5_parse_diverges (g : Option Nat) : ∀ (fuel : Nat),
    ParseTokens C5stream g fuel = .fuelOut
  | 0 => rfl
  | f + 1 => by
      have heq : ParseTokens C5stream g (f + 1) =
          ((Tree.titleLoop (C5enter g) none none f).andThen fun r t =>
              Tree.sectionTail t (some C5sa) r.1 (some r.2.2) r.2.1).andThen
            fun _ t => parseLoop t f := rfl
      rw [heq, C5_titleLoop_enter g f]
      rfl

end GoRst
